import Mathlib

/-!
# Minko `Surface`: draw-call compilation, fallback and listener tracking

A shallow embedding of `framework/src/minko/component/Surface.cpp`.

* Shared pointers are identities (`Nat`); a null pointer is `none`.
* `std::map` / `std::unordered_map` members are association lists (`Table`).
* Signals owned by the Surface (`drawCallAdded`, `drawCallRemoved`,
  `techniqueChanged`) append to the `events` log of the state.
* A C++ exception is an `Except.error` carrying the fault together with the
  state at the throw: `Surface.cpp` has no `try`/`catch`, so this is the state
  the caller is left with.
* The `do ... while (true)` loop of `getWorkingProgram` is driven by fuel; the
  fault `Fault.nonTermination` stands for exhausted fuel.
* The collaborators whose code is outside `Surface.cpp` (`Effect`, `Pass`,
  `Container`, `ContainerProperty`) are modelled from their documented
  contract; program selection and property lookup are fields of `World`.
* Listeners outside the Surface are not run: what the renderer does on
  "technique changed" or "draw call added" is not part of a call.
* A fresh draw call takes its identity from the counter `nextDrawCall`.
-/

namespace Minko

/-! ## Data model -/

/-- Identity of a property container (`data::Container::Ptr`). -/
abbrev Container := Nat

/-- Identity of a data provider (`data::Provider::Ptr`). -/
abbrev Provider := Nat

/-- Identity of a compiled program (`render::Program::Ptr`). -/
abbrev Program := Nat

/-- Identity of a draw call (`render::DrawCall::Ptr`). -/
abbrev DrawCall := Nat

/-- Association list standing for a C++ map: at most the first entry of a key is
looked up, `set` overwrites in place or appends, `erase` drops the key. -/
abbrev Table (κ ν : Type) := List (κ × ν)

namespace Table

variable {κ ν : Type} [DecidableEq κ]

/-- Lookup, the model of `map.find(k)`. -/
def find : Table κ ν → κ → Option ν
  | [], _ => none
  | (k', v) :: t, k => if k' = k then some v else find t k

/-- Membership of a key, the model of `map.count(k) != 0`. -/
def has (t : Table κ ν) (k : κ) : Bool := (find t k).isSome

/-- Assignment, the model of `map[k] = v`. -/
def set : Table κ ν → κ → ν → Table κ ν
  | [], k, v => [(k, v)]
  | (k', v') :: t, k, v => if k' = k then (k, v) :: t else (k', v') :: set t k v

/-- Removal, the model of `map.erase(k)`. -/
def erase : Table κ ν → κ → Table κ ν
  | [], _ => []
  | (k', v') :: t, k => if k' = k then erase t k else (k', v') :: erase t k

/-- Keys in iteration order. -/
def keys (t : Table κ ν) : List κ := t.map Prod.fst

end Table

/-- Modelled from the spec: `data::ContainerProperty` (its class is not part of
the sources at hand). A property name together with the container it resolved
in (`none` when no candidate container holds the name); equality compares
both. -/
structure ContainerProperty where
  name : String
  container : Option Container
deriving DecidableEq, Repr

/-- A pass of a technique (`render::Pass`): its identity, name, declared
fallback pass name and macro bindings, each binding being the pair of the macro
name and the property name it reads (`std::get<0>(binding.second)`). -/
structure Pass where
  id : Nat
  name : String
  fallback : String
  macroBindings : List (String × String)
deriving DecidableEq, Repr

/-- The `TechniquePass` pair of `Surface.hpp`: technique name and pass. -/
abbrev TechniquePass := String × Pass

/-- Modelled from the spec: `render::Effect` (its class is not part of the
sources at hand), "mapping from technique name to Technique, plus
per-technique fallback technique lookup". -/
structure Effect where
  techniques : Table String (List Pass)
  fallbacks : Table String String
  data : Provider
deriving DecidableEq, Repr

namespace Effect

/-- Modelled from the spec: `Effect::hasTechnique`. -/
def hasTechnique (e : Effect) (name : String) : Bool := e.techniques.has name

/-- Modelled from the spec: `Effect::technique`, the ordered pass list of a
technique; `none` when the effect does not define the name. -/
def technique (e : Effect) (name : String) : Option (List Pass) := e.techniques.find name

/-- Modelled from the spec: `Effect::hasFallback`. -/
def hasFallback (e : Effect) (name : String) : Bool := e.fallbacks.has name

/-- Modelled from the spec: `Effect::fallback`, the declared fallback technique. -/
def fallback (e : Effect) (name : String) : Option String := e.fallbacks.find name

end Effect

/-- The `MacroChange` enumeration of `Surface.hpp`. -/
inductive MacroChange
  | REF_CHANGED
  | ADDED
  | REMOVED
deriving DecidableEq, Repr

/-- What the Surface emits on its own signals. -/
inductive Event
  | drawCallAdded (d : DrawCall)
  | drawCallRemoved (d : DrawCall)
  | techniqueChanged (name : String)
deriving DecidableEq, Repr

/-- A connection held by the Surface: the signal it listens to together with the
handler bound to it. -/
inductive Slot
  /-- `container->propertyAdded()` bound to `macroChangedHandler(_1, _2, ADDED)`. -/
  | propertyAdded (container : Container)
  /-- `container->propertyRemoved()` bound to `macroChangedHandler(_1, _2, REMOVED)`. -/
  | propertyRemoved (container : Container)
  /-- `container->propertyReferenceChanged(name)` bound to
  `macroChangedHandler(container, name, REF_CHANGED)`. -/
  | referenceChanged (container : Container) (name : String)
  /-- `container->propertyReferenceChanged(name)` bound to `badMacroChangedHandler`. -/
  | badReferenceChanged (container : Container) (name : String)
deriving DecidableEq, Repr

/-- A scene node as far as the Surface reads it: its own data container and the
data container of its root. -/
structure Node where
  data : Container
  rootData : Container
deriving DecidableEq, Repr

/-- The faults a call can end in. -/
inductive Fault
  /-- `std::logic_error` thrown by `setTechnique`. -/
  | logicError (technique : String)
  /-- A technique name the effect does not define was handed to `Effect::technique`. -/
  | invalidTechnique (technique : String)
  /-- A null pointer was dereferenced. -/
  | nullPointer
  /-- `targets()[0]` with no target. -/
  | noTarget
  /-- `front()` of an empty list. -/
  | emptyFront
  /-- The fuel of `getWorkingProgram` ran out. -/
  | nonTermination
deriving DecidableEq, Repr

/-- The members of `Surface`, the layered providers of the containers it touches
(`providers`), the allocator of draw-call identities (`nextDrawCall`), the
program each draw call was last configured with (`configured`) and the log of
emitted signals (`events`). -/
structure Surface where
  effect : Effect
  technique : String
  material : Provider
  geometryData : Provider
  targets : List Node
  techniqueMacroNames : Table String (List String)
  drawCalls : Table Container (List DrawCall)
  drawCallToPass : Table DrawCall Pass
  drawCallToRendererData : Table DrawCall Container
  macroPropertyNameToDrawCalls : Table String (List DrawCall)
  macroAddedOrRemovedSlots : List Slot
  macroChangedSlots : Table ContainerProperty Slot
  numMacroListeners : Table ContainerProperty Int
  incorrectMacroToPasses : Table ContainerProperty (List TechniquePass)
  incorrectMacroChangedSlot : Table ContainerProperty Slot
  removedSlot : Bool
  providers : Table Container (List Provider)
  nextDrawCall : Nat
  configured : Table DrawCall Program
  events : List Event
deriving DecidableEq, Repr

/-- The three out-lists of `Pass::selectProgram`. -/
structure MacroLists where
  booleanMacros : List ContainerProperty
  integerMacros : List ContainerProperty
  incorrectIntegerMacros : List ContainerProperty
deriving DecidableEq, Repr

/-- The property state outside the Surface. `hasProperty c n` tells whether
container `c` holds property `n`; `selectProgram pass target renderer root lists`
is `Pass::selectProgram`: the program selected under the current property
values, if any, and the three out-lists as the call leaves them. -/
structure World where
  hasProperty : Container → String → Bool
  selectProgram : Pass → Container → Container → Container → MacroLists →
    Option Program × MacroLists

/-- Result of a call that may throw: the value and the state, or the fault and
the state at the throw. -/
abbrev Run (α : Type) := Except (Fault × Surface) (α × Surface)

/-- Result of a `void` call that may throw. -/
abbrev Step := Except (Fault × Surface) Surface

/-! ## Technique selection -/

/-- `Surface::setTechnique`. -/
def setTechnique (s : Surface) (technique : String) : Step :=
  if s.technique = technique then
    .ok s
  else
    let s1 := { s with technique := technique }
    if !s1.effect.hasTechnique s1.technique then
      .error (.logicError s1.technique, s1)
    else
      .ok { s1 with events := s1.events ++ [.techniqueChanged s1.technique] }

/-- `Surface::switchToFallbackTechnique`. -/
def switchToFallbackTechnique (s : Surface) : Step :=
  if s.effect.hasFallback s.technique then
    match s.effect.fallback s.technique with
    | some t => setTechnique s t
    | none => .error (.invalidTechnique s.technique, s)
  else
    .ok s

/-- One step of the loops of `initializeTechniqueMacroNames`:
`_techniqueMacroNames[techniqueName].insert(std::get<0>(macroBinding.second))`. -/
def insertTechniqueMacroName (techniqueName : String) (names : Table String (List String))
    (binding : String × String) : Table String (List String) :=
  let known := (names.find techniqueName).getD []
  names.set techniqueName (if binding.2 ∈ known then known else known ++ [binding.2])

/-- `Surface::initializeTechniqueMacroNames`. -/
def initializeTechniqueMacroNames (s : Surface) : Surface :=
  { s with
    techniqueMacroNames :=
      s.effect.techniques.foldl
        (fun names technique =>
          technique.2.foldl
            (fun names pass => pass.macroBindings.foldl (insertTechniqueMacroName technique.1) names)
            names)
        [] }

/-! ## The incorrect-macro registry -/

/-- Body of the loop of `forgiveMacros` for one integer macro. -/
def forgiveOne (pass : TechniquePass) (s : Surface) (m : ContainerProperty) : Surface :=
  match s.incorrectMacroToPasses.find m with
  | none => s
  | some failedPasses =>
    if pass ∈ failedPasses then
      let remaining := failedPasses.erase pass
      let s1 := { s with incorrectMacroToPasses := s.incorrectMacroToPasses.set m remaining }
      if remaining.isEmpty && s1.incorrectMacroChangedSlot.has m then
        { s1 with incorrectMacroChangedSlot := s1.incorrectMacroChangedSlot.erase m }
      else
        s1
    else
      s

/-- `Surface::forgiveMacros`; the list of boolean macros is not read. -/
def forgiveMacros (s : Surface) (_booleanMacros integerMacros : List ContainerProperty)
    (pass : TechniquePass) : Surface :=
  integerMacros.foldl (forgiveOne pass) s

/-- Body of the loop of `blameMacros` for one incorrect integer macro.
`_incorrectMacroToPasses[m]` creates the entry when it is missing. -/
def blameOne (pass : TechniquePass) (s : Surface) (m : ContainerProperty) : Step :=
  let failedPasses := (s.incorrectMacroToPasses.find m).getD []
  let s1 := { s with
    incorrectMacroToPasses :=
      s.incorrectMacroToPasses.set m
        (if pass ∈ failedPasses then failedPasses else failedPasses ++ [pass]) }
  if s1.incorrectMacroChangedSlot.has m then
    .ok s1
  else
    match m.container with
    | none => .error (.nullPointer, s1)
    | some c =>
      .ok { s1 with
        incorrectMacroChangedSlot :=
          s1.incorrectMacroChangedSlot.set m (.badReferenceChanged c m.name) }

/-- `Surface::blameMacros`. -/
def blameMacros (s : Surface) : List ContainerProperty → TechniquePass → Step
  | [], _ => .ok s
  | m :: rest, pass =>
    match blameOne pass s m with
    | .error e => .error e
    | .ok s1 => blameMacros s1 rest pass

/-! ## Program selection with pass fallback -/

/-- `Surface::getWorkingProgram`. Each turn of the `do ... while (true)` loop
takes one unit of fuel. -/
def getWorkingProgram (w : World) (s : Surface) (targetData rendererData rootData : Container) :
    Nat → Pass → MacroLists → Except Fault (Option Program × MacroLists)
  | 0, _, _ => .error .nonTermination
  | fuel + 1, pass, lists =>
    match w.selectProgram pass targetData rendererData rootData lists with
    | (some program, lists1) => .ok (some program, lists1)
    | (none, lists1) =>
      match s.effect.technique s.technique with
      | none => .error (.invalidTechnique s.technique)
      | some passes =>
        match passes.find? (fun p => p.name = pass.fallback) with
        | none => .ok (none, lists1)
        | some p => getWorkingProgram w s targetData rendererData rootData fuel p lists1

/-! ## Destroying draw calls -/

/-- One turn of the `while` loop of `deleteDrawCalls`: emit "draw call removed",
drop the reverse-map entries and erase the first occurrence of the draw call
from every list of the macro index. -/
def deleteDrawCall (s : Surface) (drawCall : DrawCall) : Surface :=
  { s with
    events := s.events ++ [.drawCallRemoved drawCall]
    drawCallToPass := s.drawCallToPass.erase drawCall
    drawCallToRendererData := s.drawCallToRendererData.erase drawCall
    macroPropertyNameToDrawCalls :=
      s.macroPropertyNameToDrawCalls.map (fun e => (e.1, e.2.erase drawCall)) }

/-- `Surface::deleteDrawCalls`. The `while` loop pops the front of the list of
`rendererData` until it is empty; it is run over the list as found on entry,
and the entry is erased at the end. -/
def deleteDrawCalls (s : Surface) (rendererData : Container) : Surface :=
  let drawCalls := (s.drawCalls.find rendererData).getD []
  let s1 := drawCalls.foldl deleteDrawCall s
  { s1 with
    macroPropertyNameToDrawCalls := s1.macroPropertyNameToDrawCalls.filter (fun e => !e.2.isEmpty)
    drawCalls := s1.drawCalls.erase rendererData }

/-- `Surface::deleteAllDrawCalls`: iterates over a copy of `_drawCalls`. -/
def deleteAllDrawCalls (s : Surface) : Surface :=
  let s1 := s.drawCalls.keys.foldl deleteDrawCalls s
  { s1 with macroPropertyNameToDrawCalls := [], macroChangedSlots := [] }

/-- `Surface::removedHandler`. -/
def removedHandler (s : Surface) : Surface := deleteAllDrawCalls s

/-! ## Macro listeners -/

/-- `Surface::macroChangedHandler(container, propertyName, MacroChange::ADDED)`:
with `change == ADDED` the first condition of the handler is false, so this is
its `else if` branch followed on the `ADDED` side. -/
def macroChangedHandlerAdded (s : Surface) (container : Container) (propertyName : String) :
    Surface :=
  let m : ContainerProperty := ⟨propertyName, some container⟩
  match s.techniqueMacroNames.find s.technique with
  | none => s
  | some names =>
    if m.name ∈ names then
      let numListeners : Int := (s.numMacroListeners.find m).getD 0
      let s1 :=
        if numListeners = 0 then
          { s with
            macroChangedSlots := s.macroChangedSlots.set m (.referenceChanged container m.name) }
        else
          s
      { s1 with numMacroListeners := s1.numMacroListeners.set m (numListeners + 1) }
    else
      s

/-- Modelled from the spec: the constructor
`ContainerProperty(binding, targetData, rendererData, rootData)`, which resolves
the property name in the target, renderer and root containers, in that
precedence order. -/
def resolveProperty (w : World) (name : String) (targetData rendererData rootData : Container) :
    ContainerProperty :=
  { name := name
    container :=
      if w.hasProperty targetData name then some targetData
      else if w.hasProperty rendererData name then some rendererData
      else if w.hasProperty rootData name then some rootData
      else none }

/-- Body of the loop of `initializeDrawCall` over `pass->macroBindings()` for a
fresh draw call: index the draw call under the property name and, when the
property is resolved and has no listener yet, report it as `ADDED`. -/
def registerMacroBinding (w : World) (targetData rendererData rootData : Container)
    (drawcall : DrawCall) (s : Surface) (binding : String × String) : Surface :=
  let m := resolveProperty w binding.2 targetData rendererData rootData
  let s1 := { s with
    macroPropertyNameToDrawCalls :=
      s.macroPropertyNameToDrawCalls.set m.name
        (((s.macroPropertyNameToDrawCalls.find m.name).getD []) ++ [drawcall]) }
  match m.container with
  | none => s1
  | some c =>
    let numListeners : Int := (s1.numMacroListeners.find m).getD 0
    if numListeners = 0 then macroChangedHandlerAdded s1 c m.name else s1

/-- The block `if (drawcall == nullptr) { ... }` of `initializeDrawCall`: create
the draw call, record it in the two reverse maps and run the loop over the
macro bindings of the pass. Returns the new draw call with the state. -/
def registerDrawCall (w : World) (target : Node) (rendererData : Container) (s : Surface)
    (pass : Pass) : DrawCall × Surface :=
  let d : DrawCall := s.nextDrawCall
  let s1 := { s with
    nextDrawCall := s.nextDrawCall + 1
    drawCallToPass := s.drawCallToPass.set d pass
    drawCallToRendererData := s.drawCallToRendererData.set d rendererData }
  (d, pass.macroBindings.foldl (registerMacroBinding w target.data rendererData target.rootData d) s1)

/-- `drawcall->configure(program, targetData, rendererData, rootData)`. -/
def configure (s : Surface) (drawcall : DrawCall) (program : Program) : Surface :=
  { s with configured := s.configured.set drawcall program }

/-- `Surface::initializeDrawCall`; `drawcall = none` asks for a fresh draw call,
`some d` reconfigures `d`. -/
def initializeDrawCall (w : World) (fuel : Nat) (s : Surface) (pass : Pass)
    (rendererData : Container) (drawcall : Option DrawCall) : Run (Option DrawCall) :=
  match s.targets with
  | [] => .error (.noTarget, s)
  | target :: _ =>
    match getWorkingProgram w s target.data rendererData target.rootData fuel pass ⟨[], [], []⟩ with
    | .error f => .error (f, s)
    | .ok (program, lists) =>
      let s1 := forgiveMacros s lists.booleanMacros lists.integerMacros (s.technique, pass)
      match blameMacros s1 lists.incorrectIntegerMacros (s.technique, pass) with
      | .error e => .error e
      | .ok s2 =>
        match program with
        | none => .ok (none, s2)
        | some prog =>
          match drawcall with
          | some d => .ok (some d, configure s2 d prog)
          | none =>
            let fresh := registerDrawCall w target rendererData s2 pass
            .ok (some fresh.1, configure fresh.2 fresh.1 prog)

/-- `Surface::watchMacroAdditionOrDeletion`. -/
def watchMacroAdditionOrDeletion (s : Surface) (rendererData : Container) : Surface :=
  match s.targets with
  | [] => { s with macroAddedOrRemovedSlots := [] }
  | target :: _ =>
    { s with
      macroAddedOrRemovedSlots :=
        [ .propertyAdded target.data, .propertyRemoved target.data,
          .propertyAdded rendererData, .propertyRemoved rendererData,
          .propertyAdded target.rootData, .propertyRemoved target.rootData ] }

/-! ## Creating draw calls -/

/-- The loop of `createDrawCalls` over the passes. `drawCalls` is the list the
local reference `drawCalls` of the source denotes and `doFallback` its flag.
While `_drawCalls` has an entry for `rendererData` the reference is that entry
and `push_back` writes through; once `deleteDrawCalls` has erased the entry the
reference is detached and writes to it no longer reach `_drawCalls`. There is
no `break`: the passes after a failing one are still handed to
`initializeDrawCall`. -/
def createDrawCallsLoop (w : World) (fuel : Nat) (rendererData : Container) :
    List Pass → Surface → List DrawCall → Bool → Run (List DrawCall × Bool)
  | [], s, drawCalls, doFallback => .ok ((drawCalls, doFallback), s)
  | pass :: rest, s, drawCalls, doFallback =>
    match initializeDrawCall w fuel s pass rendererData none with
    | .error e => .error e
    | .ok (some drawCall, s1) =>
      let s2 :=
        if s1.drawCalls.has rendererData then
          { s1 with drawCalls := s1.drawCalls.set rendererData (drawCalls ++ [drawCall]) }
        else
          s1
      createDrawCallsLoop w fuel rendererData rest
        { s2 with events := s2.events ++ [.drawCallAdded drawCall] }
        (drawCalls ++ [drawCall]) doFallback
    | .ok (none, s1) =>
      if s1.drawCalls.has rendererData then
        createDrawCallsLoop w fuel rendererData rest (deleteDrawCalls s1 rendererData) [] true
      else
        createDrawCallsLoop w fuel rendererData rest s1 drawCalls true

/-- `Surface::createDrawCalls`. -/
def createDrawCalls (w : World) (fuel : Nat) (s : Surface) (rendererData : Container) :
    Run (List DrawCall) :=
  let s0 := if s.drawCalls.has rendererData then deleteDrawCalls s rendererData else s
  match s0.effect.technique s0.technique with
  | none => .error (.invalidTechnique s0.technique, s0)
  | some passes =>
    let s1 :=
      if s0.drawCalls.has rendererData then s0
      else { s0 with drawCalls := s0.drawCalls.set rendererData [] }
    match createDrawCallsLoop w fuel rendererData passes s1
        ((s1.drawCalls.find rendererData).getD []) false with
    | .error e => .error e
    | .ok ((drawCalls, false), s2) => .ok (drawCalls, watchMacroAdditionOrDeletion s2 rendererData)
    | .ok ((_, true), s2) =>
      let s3 :=
        if s2.drawCalls.has rendererData then
          { s2 with drawCalls := s2.drawCalls.set rendererData [] }
        else
          s2
      match switchToFallbackTechnique s3 with
      | .error e => .error e
      | .ok s4 => .ok ([], s4)

/-! ## Reacting to property changes -/

/-- The loop of `macroChangedHandler` on `REF_CHANGED` over the (copied) list of
draw calls indexed under the property name: reconfigure each; at the first one
that gets no program destroy the draw calls of its renderer context, fall back
and `break`. -/
def reinitializeDrawCalls (w : World) (fuel : Nat) : List DrawCall → Surface → Step
  | [], s => .ok s
  | drawCall :: rest, s =>
    match s.drawCallToPass.find drawCall, s.drawCallToRendererData.find drawCall with
    | some pass, some rendererData =>
      match initializeDrawCall w fuel s pass rendererData (some drawCall) with
      | .error e => .error e
      | .ok (some _, s1) => reinitializeDrawCalls w fuel rest s1
      | .ok (none, s1) =>
        switchToFallbackTechnique
          (if s1.drawCalls.has rendererData then deleteDrawCalls s1 rendererData else s1)
    | _, _ => .error (.nullPointer, s)

/-- `Surface::macroChangedHandler(container, propertyName, MacroChange::REF_CHANGED)`.
With no draw-call list at all the handler falls into its `else if` branch, which
changes nothing for `REF_CHANGED`. `_macroPropertyNameToDrawCalls[name]` creates
the index entry when it is missing. -/
def macroChangedHandlerRefChanged (w : World) (fuel : Nat) (s : Surface)
    (_container : Container) (propertyName : String) : Step :=
  if !s.drawCalls.isEmpty then
    let s1 :=
      if s.macroPropertyNameToDrawCalls.has propertyName then s
      else { s with
        macroPropertyNameToDrawCalls := s.macroPropertyNameToDrawCalls.set propertyName [] }
    reinitializeDrawCalls w fuel ((s1.macroPropertyNameToDrawCalls.find propertyName).getD []) s1
  else
    .ok s

/-- `Surface::macroChangedHandler`. -/
def macroChangedHandler (w : World) (fuel : Nat) (s : Surface) (container : Container)
    (propertyName : String) (change : MacroChange) : Step :=
  match change with
  | .REF_CHANGED => macroChangedHandlerRefChanged w fuel s container propertyName
  | .ADDED => .ok (macroChangedHandlerAdded s container propertyName)
  | .REMOVED =>
    let m : ContainerProperty := ⟨propertyName, some container⟩
    match s.techniqueMacroNames.find s.technique with
    | none => .ok s
    | some names =>
      if m.name ∈ names then
        let numListeners : Int := (s.numMacroListeners.find m).getD 0
        match macroChangedHandlerRefChanged w fuel s container m.name with
        | .error e => .error e
        | .ok s1 =>
          let s2 := { s1 with numMacroListeners := s1.numMacroListeners.set m (numListeners - 1) }
          if numListeners - 1 = 0 then
            .ok { s2 with macroChangedSlots := s2.macroChangedSlots.erase m }
          else
            .ok s2
      else
        .ok s

/-- `Surface::badMacroChangedHandler`. -/
def badMacroChangedHandler (s : Surface) (m : ContainerProperty) : Step :=
  match s.incorrectMacroToPasses.find m with
  | none => .ok s
  | some [] => .error (.emptyFront, s)
  | some (failed :: _) => setTechnique s failed.1

/-- Modelled from the spec: the synchronous dispatch of
`container->propertyReferenceChanged(name)` to the handlers the Surface has
connected to it ("all property-change notifications are delivered and fully
processed before the triggering mutation call returns"). The connections are
read on entry; the slot of `_macroChangedSlots` runs before the slot of
`_incorrectMacroChangedSlot`. -/
def propertyReferenceChanged (w : World) (fuel : Nat) (s : Surface) (container : Container)
    (name : String) : Step :=
  let m : ContainerProperty := ⟨name, some container⟩
  let retry := s.incorrectMacroChangedSlot.has m
  match (if s.macroChangedSlots.has m then macroChangedHandler w fuel s container name .REF_CHANGED
         else .ok s) with
  | .error e => .error e
  | .ok s1 => if retry then badMacroChangedHandler s1 m else .ok s1

/-! ## Life cycle -/

/-- `Surface::initialize` without the two connections to the component's own
`targetAdded` / `targetRemoved` signals. -/
def initializeSurface (s : Surface) : Step :=
  if !s.effect.hasTechnique s.technique then
    .error (.logicError s.technique, s)
  else
    .ok (initializeTechniqueMacroNames s)

/-- Modelled from the spec: `Container::addProvider`, layering a provider into a
container. -/
def addProvider (s : Surface) (container : Container) (provider : Provider) : Surface :=
  { s with
    providers := s.providers.set container (((s.providers.find container).getD []) ++ [provider]) }

/-- Modelled from the spec: `Container::removeProvider`, unlayering a provider
from a container. -/
def removeProvider (s : Surface) (container : Container) (provider : Provider) : Surface :=
  { s with
    providers := s.providers.set container (((s.providers.find container).getD []).erase provider) }

/-- `Surface::targetAddedHandler`. -/
def targetAddedHandler (s : Surface) (target : Node) : Surface :=
  let s1 := { s with removedSlot := true }
  let s2 := addProvider s1 target.data s1.material
  let s3 := addProvider s2 target.data s2.geometryData
  addProvider s3 target.data s3.effect.data

/-- `Surface::targetRemovedHandler`. -/
def targetRemovedHandler (s : Surface) (target : Node) : Surface :=
  let s1 := { s with removedSlot := false, macroAddedOrRemovedSlots := [] }
  let s2 := removeProvider s1 target.data s1.material
  let s3 := removeProvider s2 target.data s2.geometryData
  let s4 := removeProvider s3 target.data s3.geometryData
  deleteAllDrawCalls s4

/-- Modelled from the spec: attaching the component to a node. The node joins
`targets()` and the `targetAdded` signal runs `targetAddedHandler`. -/
def addTarget (s : Surface) (target : Node) : Surface :=
  targetAddedHandler { s with targets := s.targets ++ [target] } target

/-- A Surface as its constructor leaves it. -/
def Surface.create (geometryData material : Provider) (effect : Effect) (technique : String) :
    Surface :=
  { effect := effect, technique := technique, material := material, geometryData := geometryData
    targets := [], techniqueMacroNames := [], drawCalls := [], drawCallToPass := []
    drawCallToRendererData := [], macroPropertyNameToDrawCalls := []
    macroAddedOrRemovedSlots := [], macroChangedSlots := [], numMacroListeners := []
    incorrectMacroToPasses := [], incorrectMacroChangedSlot := [], removedSlot := false
    providers := [], nextDrawCall := 0, configured := [], events := [] }

/-! ## Concrete scenes used by the examples -/

namespace Scene

/-- The property read by the integer macro `NUM_LIGHTS`. -/
def numLights : ContainerProperty := ⟨"numLights", some 2⟩

/-- Pass "main": needs `NUM_LIGHTS == 2`, declares the fallback pass "low". -/
def passMain : Pass := ⟨0, "main", "low", [("NUM_LIGHTS", "numLights")]⟩

/-- Pass "low": no macro, no fallback. -/
def passLow : Pass := ⟨1, "low", "", []⟩

/-- Pass "P": needs `NUM_LIGHTS == 2`, no fallback. -/
def passP : Pass := ⟨2, "P", "", [("NUM_LIGHTS", "numLights")]⟩

/-- Pass "Q": no macro, no fallback. -/
def passQ : Pass := ⟨3, "Q", "", []⟩

/-- Selection in a world where the root container (2) holds `numLights` with the
value `lights`: a pass that binds `NUM_LIGHTS` selects its program (the pass
identity plus 100) exactly when the value is 2, and otherwise reports the
property as incorrect; a pass without binding always selects. -/
def select (lights : Int) (pass : Pass) (_t _r _o : Container) (lists : MacroLists) :
    Option Program × MacroLists :=
  if pass.macroBindings = [] then
    (some (pass.id + 100), lists)
  else if lights = 2 then
    (some (pass.id + 100), { lists with integerMacros := lists.integerMacros ++ [numLights] })
  else
    (none, { lists with incorrectIntegerMacros := lists.incorrectIntegerMacros ++ [numLights] })

/-- The world in which `numLights` lives in the root container with the given value. -/
def world (lights : Int) : World :=
  { hasProperty := fun c n => c = 2 ∧ n = "numLights"
    selectProgram := select lights }

/-- The node the Surface is attached to: data container 1, root container 2. -/
def node : Node := ⟨1, 2⟩

/-- An initialised Surface built on `effect` with technique "T" and attached to `node`. -/
def attached (effect : Effect) : Surface :=
  addTarget (initializeTechniqueMacroNames (Surface.create 10 11 effect "T")) node

/-- Technique "T" = [main, low], no fallback technique. -/
def effectMainLow : Effect := ⟨[("T", [passMain, passLow])], [], 12⟩

/-- Technique "T" = [P, Q], no fallback technique. -/
def effectPQ : Effect := ⟨[("T", [passP, passQ])], [], 12⟩

/-- Technique "T" = [P] with no fallback technique. -/
def effectP : Effect := ⟨[("T", [passP])], [], 12⟩

/-- Technique "T" = [P] falling back to technique "U" = [Q]. -/
def effectPU : Effect := ⟨[("T", [passP]), ("U", [passQ])], [("T", "U")], 12⟩

end Scene

/-! ## Predicates used in the statements -/

/-- Only the incorrect-macro registry differs between the two states. -/
def RegistryFrame (s s' : Surface) : Prop :=
  ∃ a b, s' = { s with incorrectMacroToPasses := a, incorrectMacroChangedSlot := b }

/-- Only the macro index and the two listener tables differ between the two states. -/
def ListenerFrame (s s' : Surface) : Prop :=
  ∃ i c n, s' = { s with
    macroPropertyNameToDrawCalls := i, macroChangedSlots := c, numMacroListeners := n }

/-- A macro property is settled when binding a fresh draw call to it leaves the
listener tables alone: it is unresolved, or its listener count is not zero, or
its name is not among the macro names of the current technique. -/
def Settled (s : Surface) (m : ContainerProperty) : Prop :=
  m.container = none ∨ (s.numMacroListeners.find m).getD 0 ≠ 0 ∨
    ∀ names, s.techniqueMacroNames.find s.technique = some names → m.name ∉ names

/-- What a successful `initializeDrawCall` for a fresh draw call may change: the
registry, the macro index, the listener tables and the configured programs in
some way, and the allocator and the two reverse maps by exactly one entry. -/
def FreshFrame (s s' : Surface) (pass : Pass) (rendererData : Container) : Prop :=
  ∃ a b i c n cf, s' = { s with
    incorrectMacroToPasses := a, incorrectMacroChangedSlot := b
    macroPropertyNameToDrawCalls := i, macroChangedSlots := c, numMacroListeners := n
    configured := cf
    nextDrawCall := s.nextDrawCall + 1
    drawCallToPass := s.drawCallToPass.set s.nextDrawCall pass
    drawCallToRendererData := s.drawCallToRendererData.set s.nextDrawCall rendererData }

/-- The pass gets a program: `getWorkingProgram` ends within the fuel with some
program, and every property it reports as incorrect is resolved in a container. -/
def Selects (w : World) (s : Surface) (target : Node) (rendererData : Container) (fuel : Nat)
    (pass : Pass) : Prop :=
  ∃ prog lists,
    getWorkingProgram w s target.data rendererData target.rootData fuel pass ⟨[], [], []⟩ =
      .ok (some prog, lists) ∧
    ∀ m ∈ lists.incorrectIntegerMacros, m.container.isSome

/-- The pass gets no program: `getWorkingProgram` ends within the fuel without a
program, and every property it reports as incorrect is resolved in a container. -/
def Rejects (w : World) (s : Surface) (target : Node) (rendererData : Container) (fuel : Nat)
    (pass : Pass) : Prop :=
  ∃ lists,
    getWorkingProgram w s target.data rendererData target.rootData fuel pass ⟨[], [], []⟩ =
      .ok (none, lists) ∧
    ∀ m ∈ lists.incorrectIntegerMacros, m.container.isSome

/-- The state `s'` a run of the pass loop of `createDrawCalls` leaves when every
pass of `passes` got a draw call, started in `s` with `drawCalls` as the list of
`rendererData`: the new draw calls are `s.nextDrawCall, s.nextDrawCall + 1, ...`. -/
structure CreatedAll (s s' : Surface) (rendererData : Container) (drawCalls : List DrawCall)
    (passes : List Pass) : Prop where
  effect : s'.effect = s.effect
  technique : s'.technique = s.technique
  targets : s'.targets = s.targets
  techniqueMacroNames : s'.techniqueMacroNames = s.techniqueMacroNames
  nextDrawCall : s'.nextDrawCall = s.nextDrawCall + passes.length
  drawCalls : s'.drawCalls =
    s.drawCalls.set rendererData (drawCalls ++ List.range' s.nextDrawCall passes.length)
  events : s'.events =
    s.events ++ (List.range' s.nextDrawCall passes.length).map Event.drawCallAdded
  passOf : (List.range' s.nextDrawCall passes.length).map s'.drawCallToPass.find =
    passes.map some
  older : ∀ d, d < s.nextDrawCall → s'.drawCallToPass.find d = s.drawCallToPass.find d

/-- The six connections `watchMacroAdditionOrDeletion` makes for a target and a
renderer context. -/
def macroExistenceWatch (target : Node) (rendererData : Container) : List Slot :=
  [ .propertyAdded target.data, .propertyRemoved target.data,
    .propertyAdded rendererData, .propertyRemoved rendererData,
    .propertyAdded target.rootData, .propertyRemoved target.rootData ]

/-- The state `s'` in which `createDrawCalls` returns `drawCalls` for
`rendererData`, called in `s`, when every pass of `passes` got a draw call. -/
structure Compiled (s s' : Surface) (rendererData : Container) (drawCalls : List DrawCall)
    (passes : List Pass) : Prop where
  effect : s'.effect = s.effect
  technique : s'.technique = s.technique
  targets : s'.targets = s.targets
  techniqueMacroNames : s'.techniqueMacroNames = s.techniqueMacroNames
  nextDrawCall : s'.nextDrawCall = s.nextDrawCall + passes.length
  value : drawCalls = List.range' s.nextDrawCall passes.length
  live : s'.drawCalls.find rendererData = some drawCalls
  events : s'.events =
    s.events ++ ((s.drawCalls.find rendererData).getD []).map Event.drawCallRemoved ++
      drawCalls.map Event.drawCallAdded
  passOf : drawCalls.map s'.drawCallToPass.find = passes.map some

/-- The state the Surface attached over `effect` is left in by
`createDrawCalls` for renderer context 3 while `NUM_LIGHTS` is 0. -/
def Scene.blamed (effect : Effect) : Surface :=
  match createDrawCalls (Scene.world 0) 5 (Scene.attached effect) 3 with
  | .ok (_, s) => s
  | .error (_, s) => s

/-- Every macro binding of every pass of `passes`, resolved for the target and
the renderer context, is settled in `s`. -/
def AllSettled (w : World) (s : Surface) (target : Node) (rendererData : Container)
    (passes : List Pass) : Prop :=
  ∀ p ∈ passes, ∀ b ∈ p.macroBindings,
    Settled s (resolveProperty w b.2 target.data rendererData target.rootData)

/-- How a run that binds the macros of `passes` moves the listener tables from `s`
to `s'`: settled properties stay settled, every binding of `passes` ends
settled, and when they all were settled before, the listener counts and the
value-changed subscriptions are unchanged. -/
structure ListenersSettle (w : World) (s s' : Surface) (target : Node)
    (rendererData : Container) (passes : List Pass) : Prop where
  mono : ∀ m, Settled s m → Settled s' m
  settles : AllSettled w s' target rendererData passes
  fixed : AllSettled w s target rendererData passes →
    s'.numMacroListeners = s.numMacroListeners ∧ s'.macroChangedSlots = s.macroChangedSlots

/-- Pass "R": needs `NUM_LIGHTS == 2` like P, no fallback. -/
def Scene.passR : Pass := ⟨4, "R", "", [("NUM_LIGHTS", "numLights")]⟩

/-- Technique "T" = [P, R]: two passes binding the same macro; no fallback technique. -/
def Scene.effectPR : Effect := ⟨[("T", [Scene.passP, Scene.passR])], [], 12⟩

/-- The state the Surface attached over `effect` is left in by
`createDrawCalls` for renderer context 3 while `NUM_LIGHTS` is 2. -/
def Scene.compiled (effect : Effect) : Surface :=
  match createDrawCalls (Scene.world 2) 5 (Scene.attached effect) 3 with
  | .ok (_, s) => s
  | .error (_, s) => s

/-- The invariant of the incorrect-macro registry: no (technique, pass) pair
occurs twice in a blamed list, and a macro has a retry listener exactly when
its blamed list is not empty. -/
def RegistryOk (s : Surface) : Prop :=
  ∀ m, ((s.incorrectMacroToPasses.find m).getD []).Nodup ∧
    (s.incorrectMacroChangedSlot.has m = true ↔ (s.incorrectMacroToPasses.find m).getD [] ≠ [])

/-- The states reached from an empty registry through `forgiveMacros`,
`blameMacros` and steps that leave the two registry tables alone. -/
inductive RegistryReachable : Surface → Prop
  | empty (s : Surface) : s.incorrectMacroToPasses = [] → s.incorrectMacroChangedSlot = [] →
      RegistryReachable s
  | forgive (s : Surface) (bs is : List ContainerProperty) (tp : TechniquePass) :
      RegistryReachable s → RegistryReachable (forgiveMacros s bs is tp)
  | blame (s s' : Surface) (l : List ContainerProperty) (tp : TechniquePass) :
      RegistryReachable s → blameMacros s l tp = .ok s' → RegistryReachable s'
  | other (s s' : Surface) : RegistryReachable s →
      s'.incorrectMacroToPasses = s.incorrectMacroToPasses →
      s'.incorrectMacroChangedSlot = s.incorrectMacroChangedSlot → RegistryReachable s'

/-- The effect has, under the technique name, a pass one of whose macro bindings
reads the property `name`. -/
def Effect.references (e : Effect) (technique name : String) : Prop :=
  ∃ entry ∈ e.techniques, entry.1 = technique ∧
    ∃ p ∈ entry.2, ∃ b ∈ p.macroBindings, b.2 = name

/-- The test of `macroChangedHandler` on a property name:
`_techniqueMacroNames.count(_technique) != 0` and the set of the current
technique holds the name. -/
def Tracked (s : Surface) (name : String) : Prop :=
  ∃ names, s.techniqueMacroNames.find s.technique = some names ∧ name ∈ names

/-- The draw calls of the list are reconfigured one after the other, in order,
each with the pass and renderer context the reverse maps give for it, and each
gets a program: `s'` is the state after the last one. -/
inductive Reconfigured (w : World) (fuel : Nat) : List DrawCall → Surface → Surface → Prop
  | nil (s : Surface) : Reconfigured w fuel [] s s
  | cons (d : DrawCall) (rest : List DrawCall) (s s1 s2 : Surface) (pass : Pass)
      (rendererData : Container) :
      s.drawCallToPass.find d = some pass →
      s.drawCallToRendererData.find d = some rendererData →
      initializeDrawCall w fuel s pass rendererData (some d) = .ok (some d, s1) →
      Reconfigured w fuel rest s1 s2 → Reconfigured w fuel (d :: rest) s s2

/-- The listener counts and the value-changed subscriptions are the same in the
two states. -/
def ListenersKept (s s' : Surface) : Prop :=
  s'.numMacroListeners = s.numMacroListeners ∧ s'.macroChangedSlots = s.macroChangedSlots

/-- The walk of the fallback chain in the words of the specification: starting
at `pass` with the out-lists `lists`, either the pass selects a program (the
walk ends with it), or it fails and no pass of the technique's list carries its
declared fallback name (the walk ends without program), or it fails and the walk
goes on from the first pass of the list whose name is the declared fallback
name. `ChainEnds ... pass lists result out` says the walk ends with `result`
and the out-lists `out`. -/
inductive ChainEnds (w : World) (passes : List Pass) (t r o : Container) :
    Pass → MacroLists → Option Program → MacroLists → Prop
  | selected (pass : Pass) (lists : MacroLists) (prog : Program) (out : MacroLists) :
      w.selectProgram pass t r o lists = (some prog, out) →
      ChainEnds w passes t r o pass lists (some prog) out
  | exhausted (pass : Pass) (lists out : MacroLists) :
      w.selectProgram pass t r o lists = (none, out) →
      passes.find? (fun p => p.name = pass.fallback) = none →
      ChainEnds w passes t r o pass lists none out
  | step (pass next : Pass) (lists mid : MacroLists) (result : Option Program)
      (out : MacroLists) :
      w.selectProgram pass t r o lists = (none, mid) →
      passes.find? (fun p => p.name = pass.fallback) = some next →
      ChainEnds w passes t r o next mid result out →
      ChainEnds w passes t r o pass lists result out

/-- The passes the walk of the fallback chain visits in its first `n` steps:
the starting pass, then, as long as selection fails and the fallback name is
found, the pass found. -/
def visitedPasses (w : World) (passes : List Pass) (t r o : Container) :
    Nat → Pass → MacroLists → List Pass
  | 0, _, _ => []
  | n + 1, pass, lists =>
    pass ::
      match w.selectProgram pass t r o lists with
      | (some _, _) => []
      | (none, mid) =>
        match passes.find? (fun p => p.name = pass.fallback) with
        | none => []
        | some next => visitedPasses w passes t r o n next mid

/-- From `s` to `s'` every listener count is what it was, or went from 0 to 1. -/
def CountsStep (s s' : Surface) : Prop :=
  ∀ m, (s'.numMacroListeners.find m).getD 0 = (s.numMacroListeners.find m).getD 0 ∨
    ((s.numMacroListeners.find m).getD 0 = 0 ∧ (s'.numMacroListeners.find m).getD 0 = 1)

/-- Pass "D": two macro bindings, `NUM_LIGHTS` and `HAS_LIGHTS`, that read the
same property `numLights`; no fallback. -/
def Scene.passD : Pass :=
  ⟨5, "D", "", [("NUM_LIGHTS", "numLights"), ("HAS_LIGHTS", "numLights")]⟩

/-- Technique "T" = [D], no fallback technique. -/
def Scene.effectD : Effect := ⟨[("T", [Scene.passD])], [], 12⟩

/-- Pass "S": needs `NUM_LIGHTS == 2` and declares its own name as fallback. -/
def Scene.passS : Pass := ⟨6, "S", "S", [("NUM_LIGHTS", "numLights")]⟩

/-- Technique "T" = [S], no fallback technique. -/
def Scene.effectS : Effect := ⟨[("T", [Scene.passS])], [], 12⟩

/-! ## Lemmas on tables -/

namespace Table

variable {κ ν : Type} [DecidableEq κ]

@[simp] theorem find_set_self (t : Table κ ν) (k : κ) (v : ν) : (t.set k v).find k = some v := by
  induction t with
  | nil => simp [set, find]
  | cons e t ih =>
    obtain ⟨k', v'⟩ := e
    by_cases h : k' = k <;> simp [set, find, h, ih]

theorem find_set_ne (t : Table κ ν) {k k' : κ} (v : ν) (h : k ≠ k') :
    (t.set k v).find k' = t.find k' := by
  induction t with
  | nil => simp [set, find, h]
  | cons e t ih =>
    obtain ⟨k₀, v₀⟩ := e
    by_cases h₀ : k₀ = k
    · subst h₀; simp [set, find, h]
    · by_cases h₁ : k₀ = k'
      · subst h₁; simp [set, find, h₀]
      · simp [set, find, h₀, h₁, ih]

@[simp] theorem find_erase_self (t : Table κ ν) (k : κ) : (t.erase k).find k = none := by
  induction t with
  | nil => simp [erase, find]
  | cons e t ih =>
    obtain ⟨k', v'⟩ := e
    by_cases h : k' = k <;> simp [erase, find, h, ih]

theorem find_erase_ne (t : Table κ ν) {k k' : κ} (h : k ≠ k') :
    (t.erase k).find k' = t.find k' := by
  induction t with
  | nil => simp [erase, find]
  | cons e t ih =>
    obtain ⟨k₀, v₀⟩ := e
    by_cases h₀ : k₀ = k
    · subst h₀; simp [erase, find, h, ih]
    · by_cases h₁ : k₀ = k'
      · subst h₁; simp [erase, find, h₀]
      · simp [erase, find, h₀, h₁, ih]

@[simp] theorem has_set_self (t : Table κ ν) (k : κ) (v : ν) : (t.set k v).has k = true := by
  simp [has]

@[simp] theorem has_erase_self (t : Table κ ν) (k : κ) : (t.erase k).has k = false := by
  simp [has]

theorem has_eq_false_iff (t : Table κ ν) (k : κ) : t.has k = false ↔ t.find k = none := by
  simp [has]

theorem has_eq_true_iff (t : Table κ ν) (k : κ) : t.has k = true ↔ ∃ v, t.find k = some v := by
  simp [has, Option.isSome_iff_exists]

end Table

/-! ## `setTechnique` -/

/-- C6: `setTechnique` called with the current technique returns normally and
leaves the whole state as it was: the technique, every draw-call list, the
reverse maps, the listener counts, the blame registry and the event log (so no
"technique changed" is emitted). -/
theorem setTechnique_current_noop (s : Surface) : setTechnique s s.technique = .ok s := by
  simp [setTechnique]

/-- C7: `setTechnique name` throws exactly when `name` differs from the current
technique and the effect does not define it, and what it throws is the logic
error on `name`; when `name` differs and is defined the call returns, the
technique is `name` and the event log grew by exactly one "technique changed"
carrying `name`. -/
theorem setTechnique_logicError_iff (s : Surface) (name : String) :
    ((∃ e, setTechnique s name = .error e) ↔
        (name ≠ s.technique ∧ s.effect.hasTechnique name = false)) ∧
      (∀ e, setTechnique s name = .error e → e.1 = .logicError name) ∧
      (name ≠ s.technique → s.effect.hasTechnique name = true →
        ∃ s', setTechnique s name = .ok s' ∧ s'.technique = name ∧
          s'.events = s.events ++ [.techniqueChanged name]) := by
  refine ⟨?_, ?_, ?_⟩
  · by_cases h : s.technique = name
    · simp [setTechnique, h]
    · have h' : name ≠ s.technique := fun e => h e.symm
      cases hd : s.effect.hasTechnique name <;> simp [setTechnique, h, h', hd]
  · intro e he
    by_cases h : s.technique = name
    · simp [setTechnique, h] at he
    · cases hd : s.effect.hasTechnique name
      · simp [setTechnique, h, hd] at he
        rw [← he]
      · simp [setTechnique, h, hd] at he
  · intro h hd
    have h' : ¬ s.technique = name := fun e => h e.symm
    refine ⟨{ s with technique := name, events := s.events ++ [.techniqueChanged name] }, ?_, rfl, rfl⟩
    simp [setTechnique, h', hd]

/-- Witness of C7: on the Surface attached over "T" = [P] the undefined "U" makes
the call throw; on the one attached over "T" = [P], "U" = [Q] the call switches
to "U" and emits one "technique changed". -/
theorem setTechnique_logicError_iff_witness :
    (∃ e, setTechnique (Scene.attached Scene.effectP) "U" = .error e) ∧
      (∃ s', setTechnique (Scene.attached Scene.effectPU) "U" = .ok s' ∧ s'.technique = "U" ∧
        s'.events = (Scene.attached Scene.effectPU).events ++ [.techniqueChanged "U"]) :=
  ⟨(setTechnique_logicError_iff (Scene.attached Scene.effectP) "U").1.mpr ⟨by decide, rfl⟩,
    (setTechnique_logicError_iff (Scene.attached Scene.effectPU) "U").2.2 (by decide) rfl⟩

/-- C8: on the Surface attached over "T" = [P], `setTechnique "U"` throws the
logic error, yet the state it leaves has "U" as current technique, a name the
effect does not define. -/
theorem setTechnique_failure_moves_technique :
    ∃ s', setTechnique (Scene.attached Scene.effectP) "U" = .error (.logicError "U", s') ∧
      (Scene.attached Scene.effectP).technique = "T" ∧ s'.technique = "U" ∧
      s'.effect.hasTechnique s'.technique = false :=
  ⟨_, rfl, rfl, rfl, rfl⟩

/-! ## Frames of the registry operations -/


theorem registryFrame_refl (s : Surface) : RegistryFrame s s := ⟨_, _, rfl⟩

theorem registryFrame_trans {s₁ s₂ s₃ : Surface} (h₁ : RegistryFrame s₁ s₂)
    (h₂ : RegistryFrame s₂ s₃) : RegistryFrame s₁ s₃ := by
  obtain ⟨a, b, rfl⟩ := h₁
  obtain ⟨a', b', rfl⟩ := h₂
  exact ⟨a', b', rfl⟩

theorem forgiveOne_frame (pass : TechniquePass) (s : Surface) (m : ContainerProperty) :
    RegistryFrame s (forgiveOne pass s m) := by
  unfold forgiveOne
  split
  · exact registryFrame_refl s
  · split
    · dsimp only
      split <;> exact ⟨_, _, rfl⟩
    · exact registryFrame_refl s

theorem forgiveMacros_frame (s : Surface) (bs is : List ContainerProperty) (pass : TechniquePass) :
    RegistryFrame s (forgiveMacros s bs is pass) := by
  unfold forgiveMacros
  induction is generalizing s with
  | nil => exact registryFrame_refl s
  | cons m is ih => exact registryFrame_trans (forgiveOne_frame pass s m) (ih _)

theorem blameOne_frame {pass : TechniquePass} {s s' : Surface} {m : ContainerProperty}
    (h : blameOne pass s m = .ok s') : RegistryFrame s s' := by
  unfold blameOne at h
  simp only at h
  split at h
  · cases h; exact ⟨_, _, rfl⟩
  · split at h
    · cases h
    · cases h; exact ⟨_, _, rfl⟩

theorem blameMacros_frame {pass : TechniquePass} {l : List ContainerProperty} {s s' : Surface}
    (h : blameMacros s l pass = .ok s') : RegistryFrame s s' := by
  induction l generalizing s with
  | nil => simp [blameMacros] at h; subst h; exact registryFrame_refl s
  | cons m l ih =>
    simp only [blameMacros] at h
    split at h
    · cases h
    · next s1 h1 => exact registryFrame_trans (blameOne_frame h1) (ih h)

theorem blameOne_ok (pass : TechniquePass) (s : Surface) (m : ContainerProperty)
    (hm : m.container.isSome) : ∃ s', blameOne pass s m = .ok s' := by
  obtain ⟨c, hc⟩ := Option.isSome_iff_exists.mp hm
  unfold blameOne
  simp only [hc]
  split
  · exact ⟨_, rfl⟩
  · exact ⟨_, rfl⟩

theorem blameMacros_ok (pass : TechniquePass) (l : List ContainerProperty) (s : Surface)
    (hl : ∀ m ∈ l, m.container.isSome) : ∃ s', blameMacros s l pass = .ok s' := by
  induction l generalizing s with
  | nil => exact ⟨s, rfl⟩
  | cons m l ih =>
    obtain ⟨s1, h1⟩ := blameOne_ok pass s m (hl m (List.mem_cons_self _ _))
    obtain ⟨s2, h2⟩ := ih s1 (fun x hx => hl x (List.mem_cons_of_mem _ hx))
    exact ⟨s2, by simp [blameMacros, h1, h2]⟩

/-! ## Binding a fresh draw call to its macros -/

theorem listenerFrame_refl (s : Surface) : ListenerFrame s s := ⟨_, _, _, rfl⟩

theorem listenerFrame_trans {s₁ s₂ s₃ : Surface} (h₁ : ListenerFrame s₁ s₂)
    (h₂ : ListenerFrame s₂ s₃) : ListenerFrame s₁ s₃ := by
  obtain ⟨i, c, n, rfl⟩ := h₁
  obtain ⟨i', c', n', rfl⟩ := h₂
  exact ⟨i', c', n', rfl⟩

theorem macroChangedHandlerAdded_frame (s : Surface) (c : Container) (name : String) :
    ListenerFrame s (macroChangedHandlerAdded s c name) := by
  unfold macroChangedHandlerAdded
  dsimp only
  split
  · exact listenerFrame_refl s
  · split
    · split <;> exact ⟨_, _, _, rfl⟩
    · exact listenerFrame_refl s

theorem registerMacroBinding_frame (w : World) (t r o : Container) (d : DrawCall) (s : Surface)
    (b : String × String) : ListenerFrame s (registerMacroBinding w t r o d s b) := by
  unfold registerMacroBinding
  dsimp only
  split
  · exact ⟨_, _, _, rfl⟩
  · split
    · exact listenerFrame_trans ⟨_, _, _, rfl⟩ (macroChangedHandlerAdded_frame _ _ _)
    · exact ⟨_, _, _, rfl⟩

/-- What binding one macro does to the listener tables: nothing, or the first
listener of the resolved property is installed with count 1. -/
theorem registerMacroBinding_listeners (w : World) (t r o : Container) (d : DrawCall)
    (s : Surface) (b : String × String) :
    ((registerMacroBinding w t r o d s b).numMacroListeners = s.numMacroListeners ∧
        (registerMacroBinding w t r o d s b).macroChangedSlots = s.macroChangedSlots) ∨
      (∃ c names, (resolveProperty w b.2 t r o).container = some c ∧
        s.techniqueMacroNames.find s.technique = some names ∧
        (resolveProperty w b.2 t r o).name ∈ names ∧
        (s.numMacroListeners.find (resolveProperty w b.2 t r o)).getD 0 = 0 ∧
        (registerMacroBinding w t r o d s b).numMacroListeners =
          s.numMacroListeners.set (resolveProperty w b.2 t r o) 1 ∧
        (registerMacroBinding w t r o d s b).macroChangedSlots =
          s.macroChangedSlots.set (resolveProperty w b.2 t r o)
            (.referenceChanged c (resolveProperty w b.2 t r o).name)) := by
  generalize hm : resolveProperty w b.2 t r o = m
  unfold registerMacroBinding
  rw [hm]
  dsimp only
  obtain ⟨name, container⟩ := m
  cases container with
  | none => left; exact ⟨rfl, rfl⟩
  | some c =>
    dsimp only
    by_cases h0 : (s.numMacroListeners.find ⟨name, some c⟩).getD 0 = 0
    · rw [if_pos h0]
      unfold macroChangedHandlerAdded
      dsimp only
      cases hn : s.techniqueMacroNames.find s.technique with
      | none => left; exact ⟨rfl, rfl⟩
      | some names =>
        dsimp only
        by_cases hin : name ∈ names
        · right
          refine ⟨c, names, rfl, rfl, hin, h0, ?_, ?_⟩
          · simp [hin, h0]
          · simp [hin, h0]
        · left
          simp [hin]
    · rw [if_neg h0]
      left; exact ⟨rfl, rfl⟩

theorem registerMacroBinding_settles (w : World) (t r o : Container) (d : DrawCall)
    (s : Surface) (b : String × String) :
    Settled (registerMacroBinding w t r o d s b) (resolveProperty w b.2 t r o) := by
  obtain ⟨i, c, n, hf⟩ := registerMacroBinding_frame w t r o d s b
  have htech : (registerMacroBinding w t r o d s b).technique = s.technique := by rw [hf]
  have hnames : (registerMacroBinding w t r o d s b).techniqueMacroNames = s.techniqueMacroNames := by
    rw [hf]
  rcases registerMacroBinding_listeners w t r o d s b with ⟨hn, -⟩ | ⟨c, names, hc, hfind, hin, h0, hn, -⟩
  · unfold Settled
    rw [hn, htech, hnames]
    by_cases hc : (resolveProperty w b.2 t r o).container = none
    · exact Or.inl hc
    · by_cases h0 : (s.numMacroListeners.find (resolveProperty w b.2 t r o)).getD 0 = 0
      · right; right
        intro names hfind hin
        -- the binding was inert although resolved with count zero: the name is not tracked
        obtain ⟨c', hc'⟩ := Option.ne_none_iff_exists'.mp hc
        have key := registerMacroBinding_listeners w t r o d s b
        have hreg : (registerMacroBinding w t r o d s b).numMacroListeners =
            s.numMacroListeners.set (resolveProperty w b.2 t r o) 1 := by
          generalize hm : resolveProperty w b.2 t r o = m at hc' h0 hin ⊢
          unfold registerMacroBinding
          rw [hm]
          obtain ⟨name, container⟩ := m
          simp only at hc'
          subst hc'
          simp only at hin
          simp [h0, macroChangedHandlerAdded, hfind, hin]
        rw [hn] at hreg
        have := congrArg (fun tb => (Table.find tb (resolveProperty w b.2 t r o)).getD 0) hreg
        simp [h0] at this
      · exact Or.inr (Or.inl h0)
  · unfold Settled
    rw [hn]
    right; left
    simp

theorem registerMacroBinding_settled_mono (w : World) (t r o : Container) (d : DrawCall)
    (s : Surface) (b : String × String) (m : ContainerProperty) (h : Settled s m) :
    Settled (registerMacroBinding w t r o d s b) m := by
  obtain ⟨i, c, n, hf⟩ := registerMacroBinding_frame w t r o d s b
  have htech : (registerMacroBinding w t r o d s b).technique = s.technique := by rw [hf]
  have hnames : (registerMacroBinding w t r o d s b).techniqueMacroNames = s.techniqueMacroNames := by
    rw [hf]
  unfold Settled at h ⊢
  rw [htech, hnames]
  rcases h with h | h | h
  · exact Or.inl h
  · right; left
    rcases registerMacroBinding_listeners w t r o d s b with ⟨hn, -⟩ | ⟨c, names, -, -, -, -, hn, -⟩
    · rw [hn]; exact h
    · rw [hn]
      by_cases hm : resolveProperty w b.2 t r o = m
      · rw [hm]; simp
      · rw [Table.find_set_ne _ _ hm]; exact h
  · exact Or.inr (Or.inr h)

theorem registerMacroBinding_of_settled (w : World) (t r o : Container) (d : DrawCall)
    (s : Surface) (b : String × String) (h : Settled s (resolveProperty w b.2 t r o)) :
    (registerMacroBinding w t r o d s b).numMacroListeners = s.numMacroListeners ∧
      (registerMacroBinding w t r o d s b).macroChangedSlots = s.macroChangedSlots := by
  rcases registerMacroBinding_listeners w t r o d s b with hn | ⟨c, names, hc, hfind, hin, h0, -, -⟩
  · exact hn
  · rcases h with h | h | h
    · rw [hc] at h; cases h
    · exact absurd h0 h
    · exact absurd hin (h names hfind)

theorem foldl_registerMacroBinding_frame (w : World) (t r o : Container) (d : DrawCall)
    (l : List (String × String)) (s : Surface) :
    ListenerFrame s (l.foldl (registerMacroBinding w t r o d) s) := by
  induction l generalizing s with
  | nil => exact listenerFrame_refl s
  | cons b l ih => exact listenerFrame_trans (registerMacroBinding_frame w t r o d s b) (ih _)

theorem foldl_registerMacroBinding_settled_mono (w : World) (t r o : Container) (d : DrawCall)
    (l : List (String × String)) (s : Surface) (m : ContainerProperty) (h : Settled s m) :
    Settled (l.foldl (registerMacroBinding w t r o d) s) m := by
  induction l generalizing s with
  | nil => exact h
  | cons b l ih => exact ih _ (registerMacroBinding_settled_mono w t r o d s b m h)

theorem foldl_registerMacroBinding_settles (w : World) (t r o : Container) (d : DrawCall)
    (l : List (String × String)) (s : Surface) :
    ∀ b ∈ l, Settled (l.foldl (registerMacroBinding w t r o d) s) (resolveProperty w b.2 t r o) := by
  induction l generalizing s with
  | nil => intro b hb; cases hb
  | cons b₀ l ih =>
    intro b hb
    rcases List.mem_cons.mp hb with rfl | hb
    · exact foldl_registerMacroBinding_settled_mono w t r o d l _ _
        (registerMacroBinding_settles w t r o d s b)
    · exact ih _ b hb

theorem foldl_registerMacroBinding_of_settled (w : World) (t r o : Container) (d : DrawCall)
    (l : List (String × String)) (s : Surface)
    (h : ∀ b ∈ l, Settled s (resolveProperty w b.2 t r o)) :
    (l.foldl (registerMacroBinding w t r o d) s).numMacroListeners = s.numMacroListeners ∧
      (l.foldl (registerMacroBinding w t r o d) s).macroChangedSlots = s.macroChangedSlots := by
  induction l generalizing s with
  | nil => exact ⟨rfl, rfl⟩
  | cons b l ih =>
    obtain ⟨h1, h2⟩ := registerMacroBinding_of_settled w t r o d s b (h b (List.mem_cons_self _ _))
    obtain ⟨h3, h4⟩ := ih (registerMacroBinding w t r o d s b) (fun x hx =>
      registerMacroBinding_settled_mono w t r o d s b _ (h x (List.mem_cons_of_mem _ hx)))
    exact ⟨h3.trans h1, h4.trans h2⟩

/-! ## `initializeDrawCall` -/

theorem getWorkingProgram_congr (w : World) {s s' : Surface} (he : s'.effect = s.effect)
    (ht : s'.technique = s.technique) (t r o : Container) (fuel : Nat) (pass : Pass)
    (lists : MacroLists) :
    getWorkingProgram w s' t r o fuel pass lists = getWorkingProgram w s t r o fuel pass lists := by
  induction fuel generalizing pass lists with
  | zero => rfl
  | succ fuel ih =>
    simp only [getWorkingProgram, he, ht]
    split
    · rfl
    · split
      · rfl
      · split
        · rfl
        · exact ih _ _

theorem selects_congr {w : World} {s s' : Surface} {target : Node} {r : Container} {fuel : Nat}
    {pass : Pass} (h : Selects w s target r fuel pass) (he : s'.effect = s.effect)
    (ht : s'.technique = s.technique) : Selects w s' target r fuel pass := by
  obtain ⟨prog, lists, h1, h2⟩ := h
  exact ⟨prog, lists, by rw [getWorkingProgram_congr w he ht]; exact h1, h2⟩

theorem rejects_congr {w : World} {s s' : Surface} {target : Node} {r : Container} {fuel : Nat}
    {pass : Pass} (h : Rejects w s target r fuel pass) (he : s'.effect = s.effect)
    (ht : s'.technique = s.technique) : Rejects w s' target r fuel pass := by
  obtain ⟨lists, h1, h2⟩ := h
  exact ⟨lists, by rw [getWorkingProgram_congr w he ht]; exact h1, h2⟩

/-- The value and state of `initializeDrawCall` for a fresh draw call when the
pass gets a program. -/
theorem initializeDrawCall_fresh {w : World} {fuel : Nat} {s : Surface} {pass : Pass}
    {r : Container} {target : Node} {rest : List Node} {prog : Program} {lists : MacroLists}
    (hatt : s.targets = target :: rest)
    (hsel : getWorkingProgram w s target.data r target.rootData fuel pass ⟨[], [], []⟩ =
      .ok (some prog, lists))
    (hres : ∀ m ∈ lists.incorrectIntegerMacros, m.container.isSome) :
    ∃ s2, RegistryFrame s s2 ∧
      blameMacros (forgiveMacros s lists.booleanMacros lists.integerMacros (s.technique, pass))
        lists.incorrectIntegerMacros (s.technique, pass) = .ok s2 ∧
      initializeDrawCall w fuel s pass r none =
        .ok (some s.nextDrawCall,
          configure (registerDrawCall w target r s2 pass).2 s.nextDrawCall prog) := by
  obtain ⟨s2, h2⟩ := blameMacros_ok (s.technique, pass) lists.incorrectIntegerMacros
    (forgiveMacros s lists.booleanMacros lists.integerMacros (s.technique, pass)) hres
  have hf : RegistryFrame s s2 := registryFrame_trans (forgiveMacros_frame s _ _ _) (blameMacros_frame h2)
  refine ⟨s2, hf, h2, ?_⟩
  obtain ⟨a, b, rfl⟩ := hf
  simp only [initializeDrawCall, hatt, hsel, h2]
  rfl

/-- The value and state of `initializeDrawCall` when the pass gets no program. -/
theorem initializeDrawCall_none {w : World} {fuel : Nat} {s : Surface} {pass : Pass}
    {r : Container} {target : Node} {rest : List Node} {lists : MacroLists}
    (hatt : s.targets = target :: rest)
    (hsel : getWorkingProgram w s target.data r target.rootData fuel pass ⟨[], [], []⟩ =
      .ok (none, lists))
    (hres : ∀ m ∈ lists.incorrectIntegerMacros, m.container.isSome) (dc : Option DrawCall) :
    ∃ s2, RegistryFrame s s2 ∧
      blameMacros (forgiveMacros s lists.booleanMacros lists.integerMacros (s.technique, pass))
        lists.incorrectIntegerMacros (s.technique, pass) = .ok s2 ∧
      initializeDrawCall w fuel s pass r dc = .ok (none, s2) := by
  obtain ⟨s2, h2⟩ := blameMacros_ok (s.technique, pass) lists.incorrectIntegerMacros
    (forgiveMacros s lists.booleanMacros lists.integerMacros (s.technique, pass)) hres
  have hf : RegistryFrame s s2 := registryFrame_trans (forgiveMacros_frame s _ _ _) (blameMacros_frame h2)
  refine ⟨s2, hf, h2, ?_⟩
  simp only [initializeDrawCall, hatt, hsel, h2]

theorem registerDrawCall_frame (w : World) (target : Node) (r : Container) (s : Surface)
    (pass : Pass) :
    ∃ i c n, (registerDrawCall w target r s pass).2 = { s with
      macroPropertyNameToDrawCalls := i, macroChangedSlots := c, numMacroListeners := n
      nextDrawCall := s.nextDrawCall + 1
      drawCallToPass := s.drawCallToPass.set s.nextDrawCall pass
      drawCallToRendererData := s.drawCallToRendererData.set s.nextDrawCall r } := by
  unfold registerDrawCall
  dsimp only
  obtain ⟨i, c, n, h⟩ := foldl_registerMacroBinding_frame w target.data r target.rootData
    s.nextDrawCall pass.macroBindings
    { s with
      nextDrawCall := s.nextDrawCall + 1
      drawCallToPass := s.drawCallToPass.set s.nextDrawCall pass
      drawCallToRendererData := s.drawCallToRendererData.set s.nextDrawCall r }
  exact ⟨i, c, n, h⟩

theorem freshFrame_of_registry {s s2 : Surface} (hf : RegistryFrame s s2) (w : World)
    (target : Node) (r : Container) (pass : Pass) (prog : Program) :
    FreshFrame s (configure (registerDrawCall w target r s2 pass).2 s.nextDrawCall prog) pass r := by
  obtain ⟨a, b, rfl⟩ := hf
  obtain ⟨i, c, n, h⟩ := registerDrawCall_frame w target r
    { s with incorrectMacroToPasses := a, incorrectMacroChangedSlot := b } pass
  rw [h]
  exact ⟨_, _, _, _, _, _, rfl⟩

/-! ## `deleteDrawCalls` -/

namespace Table

variable {κ ν : Type} [DecidableEq κ]

theorem set_set (t : Table κ ν) (k : κ) (v v' : ν) : (t.set k v).set k v' = t.set k v' := by
  induction t with
  | nil => simp [set]
  | cons e t ih =>
    obtain ⟨k₀, v₀⟩ := e
    by_cases h : k₀ = k
    · subst h; simp [set]
    · simp [set, h, ih]

theorem set_eq_self_of_find (t : Table κ ν) (k : κ) (v : ν) (h : t.find k = some v) :
    t.set k v = t := by
  induction t with
  | nil => simp [find] at h
  | cons e t ih =>
    obtain ⟨k₀, v₀⟩ := e
    by_cases h₀ : k₀ = k
    · subst h₀
      simp [find] at h
      simp [set, h]
    · simp [find, h₀] at h
      simp [set, h₀, ih h]

theorem erase_eq_self_of_find (t : Table κ ν) (k : κ) (h : t.find k = none) :
    t.erase k = t := by
  induction t with
  | nil => rfl
  | cons e t ih =>
    obtain ⟨k₀, v₀⟩ := e
    by_cases h₀ : k₀ = k
    · simp [find, h₀] at h
    · simp [find, h₀] at h
      simp [erase, h₀, ih h]

end Table

theorem foldl_deleteDrawCall_frame (l : List DrawCall) (s : Surface) :
    ∃ p q i, l.foldl deleteDrawCall s = { s with
      events := s.events ++ l.map Event.drawCallRemoved
      drawCallToPass := p, drawCallToRendererData := q, macroPropertyNameToDrawCalls := i } := by
  induction l generalizing s with
  | nil => exact ⟨s.drawCallToPass, s.drawCallToRendererData, s.macroPropertyNameToDrawCalls, by simp⟩
  | cons d l ih =>
    obtain ⟨p, q, i, h⟩ := ih (deleteDrawCall s d)
    refine ⟨p, q, i, ?_⟩
    rw [List.foldl_cons, h]
    simp [deleteDrawCall]

theorem deleteDrawCalls_frame (s : Surface) (r : Container) :
    ∃ p q i, deleteDrawCalls s r = { s with
      events := s.events ++ ((s.drawCalls.find r).getD []).map Event.drawCallRemoved
      drawCallToPass := p, drawCallToRendererData := q, macroPropertyNameToDrawCalls := i
      drawCalls := s.drawCalls.erase r } := by
  obtain ⟨p, q, i, h⟩ := foldl_deleteDrawCall_frame ((s.drawCalls.find r).getD []) s
  unfold deleteDrawCalls
  dsimp only
  rw [h]
  exact ⟨_, _, _, rfl⟩

/-! ## `createDrawCalls` when every pass gets a program -/

theorem createDrawCallsLoop_success (w : World) (fuel : Nat) (r : Container) (target : Node)
    (rest : List Node) :
    ∀ (passes : List Pass) (s : Surface) (acc : List DrawCall),
      s.targets = target :: rest → s.drawCalls.find r = some acc →
      (∀ p ∈ passes, Selects w s target r fuel p) →
      ∃ s', createDrawCallsLoop w fuel r passes s acc false =
          .ok ((acc ++ List.range' s.nextDrawCall passes.length, false), s') ∧
        CreatedAll s s' r acc passes := by
  intro passes
  induction passes with
  | nil =>
    intro s acc _ hfind _
    refine ⟨s, by simp [createDrawCallsLoop], ?_⟩
    refine ⟨rfl, rfl, rfl, rfl, rfl, ?_, by simp, by simp, fun _ _ => rfl⟩
    simp [Table.set_eq_self_of_find _ _ _ hfind]
  | cons p ps ih =>
    intro s acc hatt hfind hsel
    obtain ⟨prog, lists, hp, hres⟩ := hsel p (List.mem_cons_self _ _)
    obtain ⟨s2, hf, -, hinit⟩ := initializeDrawCall_fresh hatt hp hres
    obtain ⟨a, b, i, c, n, cf, hs1⟩ := freshFrame_of_registry hf w target r p prog
    rw [hs1] at hinit
    have hhas : s.drawCalls.has r = true := by simp [Table.has, hfind]
    obtain ⟨s', hloop, hc⟩ := ih
      { s with
        incorrectMacroToPasses := a, incorrectMacroChangedSlot := b
        macroPropertyNameToDrawCalls := i, macroChangedSlots := c, numMacroListeners := n
        configured := cf
        nextDrawCall := s.nextDrawCall + 1
        drawCallToPass := s.drawCallToPass.set s.nextDrawCall p
        drawCallToRendererData := s.drawCallToRendererData.set s.nextDrawCall r
        drawCalls := s.drawCalls.set r (acc ++ [s.nextDrawCall])
        events := s.events ++ [.drawCallAdded s.nextDrawCall] }
      (acc ++ [s.nextDrawCall]) hatt (by simp)
      (fun q hq => selects_congr (hsel q (List.mem_cons_of_mem _ hq)) rfl rfl)
    refine ⟨s', ?_, ?_⟩
    · simp only [createDrawCallsLoop, hinit, hhas, if_true]
      rw [hloop]
      simp [List.range'_succ]
    · obtain ⟨h1, h2, h3, h4, h5, h6, h7, h8, h9⟩ := hc
      simp only at h1 h2 h3 h4 h5 h6 h7 h8 h9
      refine ⟨h1, h2, h3, h4, ?_, ?_, ?_, ?_, ?_⟩
      · rw [h5, List.length_cons]; omega
      · rw [h6, Table.set_set]; simp [List.range'_succ]
      · rw [h7]; simp [List.range'_succ]
      · rw [List.length_cons, List.range'_succ, List.map_cons, List.map_cons, h8, h9 _ (by omega)]
        simp
      · intro d hd
        rw [h9 d (by omega), Table.find_set_ne _ _ (Nat.ne_of_gt hd)]

/-- The state before the pass loop of `createDrawCalls`: an existing list of the
renderer context has been destroyed. -/
theorem createDrawCalls_prelude (s : Surface) (r : Container) :
    ∃ p q i, (if s.drawCalls.has r then deleteDrawCalls s r else s) = { s with
      events := s.events ++ ((s.drawCalls.find r).getD []).map Event.drawCallRemoved
      drawCallToPass := p, drawCallToRendererData := q, macroPropertyNameToDrawCalls := i
      drawCalls := s.drawCalls.erase r } := by
  cases h : s.drawCalls.has r
  · have hnone : s.drawCalls.find r = none := (Table.has_eq_false_iff _ _).mp h
    have herase : s.drawCalls.erase r = s.drawCalls := Table.erase_eq_self_of_find _ _ hnone
    refine ⟨s.drawCallToPass, s.drawCallToRendererData, s.macroPropertyNameToDrawCalls, ?_⟩
    simp [hnone, herase]
  · simpa using deleteDrawCalls_frame s r

theorem createDrawCalls_success {w : World} {fuel : Nat} {s : Surface} {r : Container}
    {target : Node} {rest : List Node} {passes : List Pass}
    (hatt : s.targets = target :: rest)
    (htech : s.effect.technique s.technique = some passes)
    (hsel : ∀ p ∈ passes, Selects w s target r fuel p) :
    ∃ s', createDrawCalls w fuel s r = .ok (List.range' s.nextDrawCall passes.length, s') ∧
      Compiled s s' r (List.range' s.nextDrawCall passes.length) passes ∧
      s'.macroAddedOrRemovedSlots = macroExistenceWatch target r := by
  obtain ⟨p, q, i, h0⟩ := createDrawCalls_prelude s r
  obtain ⟨s2, hloop, hc⟩ := createDrawCallsLoop_success w fuel r target rest passes
    { s with
      events := s.events ++ ((s.drawCalls.find r).getD []).map Event.drawCallRemoved
      drawCallToPass := p, drawCallToRendererData := q, macroPropertyNameToDrawCalls := i
      drawCalls := (s.drawCalls.erase r).set r [] }
    [] hatt (by simp) (fun x hx => selects_congr (hsel x hx) rfl rfl)
  simp only [List.nil_append] at hloop
  obtain ⟨h1, h2, h3, h4, h5, h6, h7, h8, -⟩ := hc
  simp only [List.nil_append] at h1 h2 h3 h4 h5 h6 h7 h8
  have hw : watchMacroAdditionOrDeletion s2 r =
      { s2 with macroAddedOrRemovedSlots := macroExistenceWatch target r } := by
    unfold watchMacroAdditionOrDeletion
    rw [h3, hatt]
    rfl
  refine ⟨watchMacroAdditionOrDeletion s2 r, ?_, ?_, ?_⟩
  · unfold createDrawCalls
    simp only [h0, htech, Table.has_erase_self, Bool.false_eq_true, if_false, Table.find_set_self,
      Option.getD_some, hloop]
  · rw [hw]
    exact ⟨h1, h2, h3, h4, h5, rfl, by rw [h6]; simp, h7, h8⟩
  · rw [hw]

/-- C1: on an attached Surface whose current technique has the pass list
`passes`, each pass of which gets a program, `createDrawCalls` returns a list of
pairwise distinct draw calls, one per pass in the declared order (the pass
recorded for the i-th draw call is the i-th pass), which is the live list of the
renderer context; the only signals emitted are "draw call removed" for the list
that existed before and then exactly one "draw call added" per returned draw
call, in the order of the list. -/
theorem createDrawCalls_one_per_pass (w : World) (fuel : Nat) (s : Surface) (r : Container)
    (target : Node) (rest : List Node) (passes : List Pass)
    (hatt : s.targets = target :: rest)
    (htech : s.effect.technique s.technique = some passes)
    (hsel : ∀ p ∈ passes, Selects w s target r fuel p) :
    ∃ l s', createDrawCalls w fuel s r = .ok (l, s') ∧
      l.length = passes.length ∧ l.Nodup ∧
      l.map s'.drawCallToPass.find = passes.map some ∧
      s'.drawCalls.find r = some l ∧
      s'.events =
        s.events ++ ((s.drawCalls.find r).getD []).map Event.drawCallRemoved ++
          l.map Event.drawCallAdded := by
  obtain ⟨s', h, hc, -⟩ := createDrawCalls_success hatt htech hsel
  exact ⟨_, s', h, by simp, List.nodup_range' _ _, hc.passOf, hc.live, hc.events⟩

/-- Witness of C1: technique "T" = [P, Q] with `NUM_LIGHTS = 2`, renderer context 3. -/
theorem createDrawCalls_one_per_pass_witness :
    (Scene.attached Scene.effectPQ).targets = Scene.node :: [] ∧
    (Scene.attached Scene.effectPQ).effect.technique (Scene.attached Scene.effectPQ).technique =
      some [Scene.passP, Scene.passQ] ∧
    (∀ p ∈ [Scene.passP, Scene.passQ],
      Selects (Scene.world 2) (Scene.attached Scene.effectPQ) Scene.node 3 5 p) ∧
    ∃ l s', createDrawCalls (Scene.world 2) 5 (Scene.attached Scene.effectPQ) 3 = .ok (l, s') ∧
      l.length = [Scene.passP, Scene.passQ].length ∧ l.Nodup ∧
      l.map s'.drawCallToPass.find = [Scene.passP, Scene.passQ].map some ∧
      s'.drawCalls.find 3 = some l ∧
      s'.events =
        (Scene.attached Scene.effectPQ).events ++
          (((Scene.attached Scene.effectPQ).drawCalls.find 3).getD []).map Event.drawCallRemoved ++
          l.map Event.drawCallAdded :=
  have hsel : ∀ p ∈ [Scene.passP, Scene.passQ],
      Selects (Scene.world 2) (Scene.attached Scene.effectPQ) Scene.node 3 5 p := by
    intro p hp
    simp only [List.mem_cons, List.mem_singleton, List.not_mem_nil, or_false] at hp
    rcases hp with rfl | rfl
    · exact ⟨_, _, rfl, by decide⟩
    · exact ⟨_, _, rfl, by decide⟩
  ⟨rfl, rfl, hsel,
    createDrawCalls_one_per_pass (Scene.world 2) 5 (Scene.attached Scene.effectPQ) 3 Scene.node []
      [Scene.passP, Scene.passQ] rfl rfl hsel⟩

/-! ## `createDrawCalls` when a pass gets no program -/

/-- C2: technique "T" = [P, Q] with `NUM_LIGHTS = 0`. Pass P gets no program, yet
pass Q, declared after it, is still handed to `initializeDrawCall`: draw call 0
is created for Q and recorded in the reverse map, "draw call added" is emitted
for it, and it is never announced as removed although the call returns the empty
list and leaves no list for the renderer context. -/
theorem createDrawCalls_continues_after_failure :
    Rejects (Scene.world 0) (Scene.attached Scene.effectPQ) Scene.node 3 5 Scene.passP ∧
    ∃ s', createDrawCalls (Scene.world 0) 5 (Scene.attached Scene.effectPQ) 3 = .ok ([], s') ∧
      s'.events = [.drawCallAdded 0] ∧
      s'.drawCallToPass.find 0 = some Scene.passQ ∧
      s'.drawCallToRendererData.find 0 = some 3 ∧
      s'.nextDrawCall = 1 ∧
      s'.drawCalls.find 3 = none :=
  ⟨⟨_, rfl, by decide⟩, _, rfl, rfl, rfl, rfl, rfl, rfl⟩

/-- C3, as stated, fails: technique "T" = [main, low] with `NUM_LIGHTS = 0`, so
that selection fails for "main" and succeeds for "low". `createDrawCalls`
returns two draw calls, the first one is recorded for pass "main", and "draw
call added" is emitted for it. -/
theorem createDrawCalls_main_low_two_draw_calls :
    ((Scene.world 0).selectProgram Scene.passMain 1 3 2 ⟨[], [], []⟩).1 = none ∧
    ((Scene.world 0).selectProgram Scene.passLow 1 3 2 ⟨[], [], []⟩).1 = some 101 ∧
    ∃ s', createDrawCalls (Scene.world 0) 5 (Scene.attached Scene.effectMainLow) 3 =
        .ok ([0, 1], s') ∧
      s'.drawCallToPass.find 0 = some Scene.passMain ∧
      s'.drawCallToPass.find 1 = some Scene.passLow ∧
      s'.events = [.drawCallAdded 0, .drawCallAdded 1] :=
  ⟨rfl, rfl, _, rfl, rfl, rfl, rfl⟩

/-- C3 as amended: when the pass list of the current technique is [main, low],
"main" declares "low" as its fallback, selection fails for "main" and succeeds
for "low", `getWorkingProgram` gives "main" the program selected for "low" and
`createDrawCalls` returns exactly two distinct draw calls: the first recorded
for pass "main", the second for pass "low"; "draw call added" is emitted for
each of them, in that order. -/
theorem createDrawCalls_main_low (w : World) (fuel : Nat) (s : Surface) (r : Container)
    (target : Node) (rest : List Node) (main low : Pass) (prog prog' : Program)
    (lm l1 l2 : MacroLists)
    (hatt : s.targets = target :: rest)
    (htech : s.effect.technique s.technique = some [main, low])
    (hname : main.name ≠ main.fallback) (hfb : low.name = main.fallback)
    (hmain : w.selectProgram main target.data r target.rootData ⟨[], [], []⟩ = (none, lm))
    (hlow1 : w.selectProgram low target.data r target.rootData lm = (some prog, l1))
    (hlow2 : w.selectProgram low target.data r target.rootData ⟨[], [], []⟩ = (some prog', l2))
    (hres1 : ∀ m ∈ l1.incorrectIntegerMacros, m.container.isSome)
    (hres2 : ∀ m ∈ l2.incorrectIntegerMacros, m.container.isSome) :
    getWorkingProgram w s target.data r target.rootData (fuel + 2) main ⟨[], [], []⟩ =
        .ok (some prog, l1) ∧
    ∃ s', createDrawCalls w (fuel + 2) s r = .ok ([s.nextDrawCall, s.nextDrawCall + 1], s') ∧
      s'.drawCallToPass.find s.nextDrawCall = some main ∧
      s'.drawCallToPass.find (s.nextDrawCall + 1) = some low ∧
      s'.drawCalls.find r = some [s.nextDrawCall, s.nextDrawCall + 1] ∧
      s'.events =
        s.events ++ ((s.drawCalls.find r).getD []).map Event.drawCallRemoved ++
          [.drawCallAdded s.nextDrawCall, .drawCallAdded (s.nextDrawCall + 1)] := by
  have hgm : getWorkingProgram w s target.data r target.rootData (fuel + 2) main ⟨[], [], []⟩ =
      .ok (some prog, l1) := by
    simp [getWorkingProgram, hmain, htech, List.find?, hname, hfb, hlow1]
  have hgl : getWorkingProgram w s target.data r target.rootData (fuel + 2) low ⟨[], [], []⟩ =
      .ok (some prog', l2) := by
    simp [getWorkingProgram, hlow2]
  have hsel : ∀ p ∈ [main, low], Selects w s target r (fuel + 2) p := by
    intro p hp
    simp only [List.mem_cons, List.mem_singleton, List.not_mem_nil, or_false] at hp
    rcases hp with rfl | rfl
    · exact ⟨prog, l1, hgm, hres1⟩
    · exact ⟨prog', l2, hgl, hres2⟩
  obtain ⟨s', h, hc, -⟩ := createDrawCalls_success hatt htech hsel
  have hp := hc.passOf
  simp [List.range'_succ] at hp h
  refine ⟨hgm, s', h, hp.1, hp.2, ?_, ?_⟩
  · simpa [List.range'_succ] using hc.live
  · simpa [List.range'_succ] using hc.events

/-- Witness of the amended C3 on technique "T" = [main, low] with `NUM_LIGHTS = 0`. -/
theorem createDrawCalls_main_low_witness :
    getWorkingProgram (Scene.world 0) (Scene.attached Scene.effectMainLow) 1 3 2 (3 + 2)
        Scene.passMain ⟨[], [], []⟩ = .ok (some 101, ⟨[], [], [Scene.numLights]⟩) ∧
    ∃ s', createDrawCalls (Scene.world 0) (3 + 2) (Scene.attached Scene.effectMainLow) 3 =
        .ok ([(Scene.attached Scene.effectMainLow).nextDrawCall,
          (Scene.attached Scene.effectMainLow).nextDrawCall + 1], s') ∧
      s'.drawCallToPass.find (Scene.attached Scene.effectMainLow).nextDrawCall =
        some Scene.passMain ∧
      s'.drawCallToPass.find ((Scene.attached Scene.effectMainLow).nextDrawCall + 1) =
        some Scene.passLow ∧
      s'.drawCalls.find 3 = some [(Scene.attached Scene.effectMainLow).nextDrawCall,
          (Scene.attached Scene.effectMainLow).nextDrawCall + 1] ∧
      s'.events =
        (Scene.attached Scene.effectMainLow).events ++
          (((Scene.attached Scene.effectMainLow).drawCalls.find 3).getD []).map
            Event.drawCallRemoved ++
          [.drawCallAdded (Scene.attached Scene.effectMainLow).nextDrawCall,
            .drawCallAdded ((Scene.attached Scene.effectMainLow).nextDrawCall + 1)] :=
  createDrawCalls_main_low (Scene.world 0) 3 (Scene.attached Scene.effectMainLow) 3 Scene.node []
    Scene.passMain Scene.passLow 101 101 ⟨[], [], [Scene.numLights]⟩
    ⟨[], [], [Scene.numLights]⟩ ⟨[], [], []⟩ rfl rfl (by decide) rfl rfl rfl rfl
    (by decide) (by decide)

/-- The pass loop of `createDrawCalls` once the list of the renderer context is
gone, when every remaining pass gets no program: only the registry changes. -/
theorem createDrawCallsLoop_reject_detached (w : World) (fuel : Nat) (r : Container)
    (target : Node) (rest : List Node) :
    ∀ (passes : List Pass) (s : Surface) (acc : List DrawCall),
      s.targets = target :: rest → s.drawCalls.has r = false →
      (∀ p ∈ passes, Rejects w s target r fuel p) →
      ∃ s', createDrawCallsLoop w fuel r passes s acc true = .ok ((acc, true), s') ∧
        RegistryFrame s s' := by
  intro passes
  induction passes with
  | nil =>
    intro s acc _ _ _
    exact ⟨s, rfl, registryFrame_refl s⟩
  | cons p ps ih =>
    intro s acc hatt hhas hrej
    obtain ⟨lists, hp, hres⟩ := hrej p (List.mem_cons_self _ _)
    obtain ⟨s2, hf, -, hinit⟩ := initializeDrawCall_none hatt hp hres none
    obtain ⟨a, b, rfl⟩ := hf
    obtain ⟨s', hloop, hf'⟩ := ih
      { s with incorrectMacroToPasses := a, incorrectMacroChangedSlot := b } acc hatt hhas
      (fun q hq => rejects_congr (hrej q (List.mem_cons_of_mem _ hq)) rfl rfl)
    refine ⟨s', ?_, registryFrame_trans ⟨a, b, rfl⟩ hf'⟩
    simp only [createDrawCallsLoop, hinit, hhas, Bool.false_eq_true, if_false]
    exact hloop

/-- The pass loop of `createDrawCalls` started on the fresh, empty list of the
renderer context, when every pass gets no program: the first failure erases the
list, nothing is created and nothing is emitted. -/
theorem createDrawCallsLoop_reject (w : World) (fuel : Nat) (r : Container)
    (target : Node) (rest : List Node) (p : Pass) (ps : List Pass) (s : Surface)
    (hatt : s.targets = target :: rest) (hfind : s.drawCalls.find r = some [])
    (hrej : ∀ q ∈ p :: ps, Rejects w s target r fuel q) :
    ∃ a b i, createDrawCallsLoop w fuel r (p :: ps) s [] false =
      .ok (([], true), { s with
        incorrectMacroToPasses := a, incorrectMacroChangedSlot := b
        macroPropertyNameToDrawCalls := i
        drawCalls := s.drawCalls.erase r }) := by
  obtain ⟨lists, hp, hres⟩ := hrej p (List.mem_cons_self _ _)
  obtain ⟨s2, hf, -, hinit⟩ := initializeDrawCall_none hatt hp hres none
  obtain ⟨a, b, rfl⟩ := hf
  have hdel' : deleteDrawCalls
      { s with incorrectMacroToPasses := a, incorrectMacroChangedSlot := b } r =
      { s with
        incorrectMacroToPasses := a, incorrectMacroChangedSlot := b
        macroPropertyNameToDrawCalls :=
          s.macroPropertyNameToDrawCalls.filter (fun e => !e.2.isEmpty)
        drawCalls := s.drawCalls.erase r } := by
    simp [deleteDrawCalls, hfind]
  obtain ⟨s', hloop, a', b', hs'⟩ := createDrawCallsLoop_reject_detached w fuel r target rest ps
    { s with
      incorrectMacroToPasses := a, incorrectMacroChangedSlot := b
      macroPropertyNameToDrawCalls :=
        s.macroPropertyNameToDrawCalls.filter (fun e => !e.2.isEmpty)
      drawCalls := s.drawCalls.erase r } [] hatt (by simp)
    (fun q hq => rejects_congr (hrej q (List.mem_cons_of_mem _ hq)) rfl rfl)
  refine ⟨a', b', s.macroPropertyNameToDrawCalls.filter (fun e => !e.2.isEmpty), ?_⟩
  have hhas : s.drawCalls.has r = true := by simp [Table.has, hfind]
  simp only [createDrawCallsLoop, hinit, hhas, if_true, hdel', hloop, hs']

/-- C4: on an attached Surface whose effect declares no fallback for the current
technique `T`, when every pass of `T` ends its fallback chain without a program,
`createDrawCalls` returns normally with the empty list; the technique is still
`T`, the renderer context has no live draw call, no draw call was created, and
the only signals emitted are the "draw call removed" of the list that existed
before (so no "draw call added"). -/
theorem createDrawCalls_all_fail (w : World) (fuel : Nat) (s : Surface) (r : Container)
    (target : Node) (rest : List Node) (passes : List Pass)
    (hatt : s.targets = target :: rest)
    (htech : s.effect.technique s.technique = some passes)
    (hnofb : s.effect.hasFallback s.technique = false)
    (hrej : ∀ p ∈ passes, Rejects w s target r fuel p) :
    ∃ s', createDrawCalls w fuel s r = .ok ([], s') ∧
      s'.technique = s.technique ∧
      (s'.drawCalls.find r).getD [] = [] ∧
      s'.nextDrawCall = s.nextDrawCall ∧
      s'.events = s.events ++ ((s.drawCalls.find r).getD []).map Event.drawCallRemoved := by
  obtain ⟨p, q, i, h0⟩ := createDrawCalls_prelude s r
  cases passes with
  | nil =>
    refine ⟨watchMacroAdditionOrDeletion
      { s with
        events := s.events ++ ((s.drawCalls.find r).getD []).map Event.drawCallRemoved
        drawCallToPass := p, drawCallToRendererData := q, macroPropertyNameToDrawCalls := i
        drawCalls := (s.drawCalls.erase r).set r [] } r, ?_, ?_⟩
    · unfold createDrawCalls
      simp only [h0, htech, Table.has_erase_self, Bool.false_eq_true, if_false,
        Table.find_set_self, Option.getD_some, createDrawCallsLoop]
    · unfold watchMacroAdditionOrDeletion
      simp only [hatt]
      simp
  | cons p₀ ps =>
    obtain ⟨a, b, i', hloop⟩ := createDrawCallsLoop_reject w fuel r target rest p₀ ps
      { s with
        events := s.events ++ ((s.drawCalls.find r).getD []).map Event.drawCallRemoved
        drawCallToPass := p, drawCallToRendererData := q, macroPropertyNameToDrawCalls := i
        drawCalls := (s.drawCalls.erase r).set r [] }
      hatt (by simp) (fun x hx => rejects_congr (hrej x hx) rfl rfl)
    refine ⟨
      { s with
        events := s.events ++ ((s.drawCalls.find r).getD []).map Event.drawCallRemoved
        drawCallToPass := p, drawCallToRendererData := q
        incorrectMacroToPasses := a, incorrectMacroChangedSlot := b
        macroPropertyNameToDrawCalls := i'
        drawCalls := ((s.drawCalls.erase r).set r []).erase r }, ?_, ?_⟩
    · unfold createDrawCalls
      simp only [h0, htech, Table.has_erase_self, Bool.false_eq_true, if_false,
        Table.find_set_self, Option.getD_some, hloop, switchToFallbackTechnique, hnofb]
    · simp

/-- Witness of C4: technique "T" = [P] without fallback technique, `NUM_LIGHTS = 0`. -/
theorem createDrawCalls_all_fail_witness :
    (Scene.attached Scene.effectP).effect.hasFallback (Scene.attached Scene.effectP).technique =
      false ∧
    (∀ p ∈ [Scene.passP], Rejects (Scene.world 0) (Scene.attached Scene.effectP) Scene.node 3 5 p) ∧
    ∃ s', createDrawCalls (Scene.world 0) 5 (Scene.attached Scene.effectP) 3 = .ok ([], s') ∧
      s'.technique = (Scene.attached Scene.effectP).technique ∧
      (s'.drawCalls.find 3).getD [] = [] ∧
      s'.nextDrawCall = (Scene.attached Scene.effectP).nextDrawCall ∧
      s'.events = (Scene.attached Scene.effectP).events ++
        (((Scene.attached Scene.effectP).drawCalls.find 3).getD []).map Event.drawCallRemoved :=
  have hrej : ∀ p ∈ [Scene.passP],
      Rejects (Scene.world 0) (Scene.attached Scene.effectP) Scene.node 3 5 p := by
    intro p hp
    simp only [List.mem_singleton] at hp
    subst hp
    exact ⟨_, rfl, by decide⟩
  ⟨rfl, hrej,
    createDrawCalls_all_fail (Scene.world 0) 5 (Scene.attached Scene.effectP) 3 Scene.node []
      [Scene.passP] rfl rfl rfl hrej⟩

/-! ## Node removal -/

namespace Table

variable {κ ν : Type} [DecidableEq κ]

theorem mem_erase {t : Table κ ν} {k : κ} {e : κ × ν} (h : e ∈ t.erase k) : e ∈ t ∧ e.1 ≠ k := by
  induction t with
  | nil => simp [erase] at h
  | cons e₀ t ih =>
    obtain ⟨k₀, v₀⟩ := e₀
    by_cases h₀ : k₀ = k
    · simp only [erase, h₀, if_true] at h
      exact ⟨List.mem_cons_of_mem _ (ih h).1, (ih h).2⟩
    · simp only [erase, h₀, if_false] at h
      rcases List.mem_cons.mp h with rfl | h
      · exact ⟨List.mem_cons_self _ _, h₀⟩
      · exact ⟨List.mem_cons_of_mem _ (ih h).1, (ih h).2⟩

theorem foldl_erase_eq_nil (ks : List κ) (t : Table κ ν) (h : ∀ e ∈ t, e.1 ∈ ks) :
    ks.foldl erase t = [] := by
  induction ks generalizing t with
  | nil =>
    cases t with
    | nil => rfl
    | cons e t => exact absurd (h e (List.mem_cons_self _ _)) (List.not_mem_nil _)
  | cons k ks ih =>
    rw [List.foldl_cons]
    apply ih
    intro e he
    obtain ⟨h₁, h₂⟩ := mem_erase he
    rcases List.mem_cons.mp (h e h₁) with h₃ | h₃
    · exact absurd h₃ h₂
    · exact h₃

theorem foldl_erase_keys (t : Table κ ν) : t.keys.foldl erase t = [] :=
  foldl_erase_eq_nil _ _ (fun _ he => List.mem_map_of_mem Prod.fst he)

end Table

theorem foldl_deleteDrawCalls_frame (ks : List Container) (s : Surface) :
    ∃ ev p q i, ks.foldl deleteDrawCalls s = { s with
      events := ev, drawCallToPass := p, drawCallToRendererData := q
      macroPropertyNameToDrawCalls := i
      drawCalls := ks.foldl Table.erase s.drawCalls } := by
  induction ks generalizing s with
  | nil =>
    exact ⟨s.events, s.drawCallToPass, s.drawCallToRendererData, s.macroPropertyNameToDrawCalls,
      rfl⟩
  | cons k ks ih =>
    obtain ⟨p, q, i, h⟩ := deleteDrawCalls_frame s k
    obtain ⟨ev', p', q', i', h'⟩ := ih (deleteDrawCalls s k)
    refine ⟨ev', p', q', i', ?_⟩
    rw [List.foldl_cons, h', h]
    rfl

/-- C9, as stated, fails: on the Surface attached over "T" = [P] with
`NUM_LIGHTS = 0`, `createDrawCalls` blames ("T", P) for `numLights` and installs
the retry listener; after `removedHandler` the blamed record and the retry
listener are still there. -/
theorem removedHandler_keeps_registry :
    ∃ s', createDrawCalls (Scene.world 0) 5 (Scene.attached Scene.effectP) 3 = .ok ([], s') ∧
      (removedHandler s').incorrectMacroToPasses.find Scene.numLights =
        some [("T", Scene.passP)] ∧
      (removedHandler s').incorrectMacroChangedSlot.find Scene.numLights =
        some (.badReferenceChanged 2 "numLights") :=
  ⟨_, rfl, rfl, rfl⟩

/-- C9 as amended: after `removedHandler` the Surface holds no draw-call list for
any renderer context, no macro value-changed subscription and an empty macro
index, while the incorrect-macro registry (the blamed records and the retry
listeners) is exactly what it was before. -/
theorem removedHandler_clears (s : Surface) :
    (removedHandler s).drawCalls = [] ∧
      (removedHandler s).macroChangedSlots = [] ∧
      (removedHandler s).macroPropertyNameToDrawCalls = [] ∧
      (removedHandler s).incorrectMacroToPasses = s.incorrectMacroToPasses ∧
      (removedHandler s).incorrectMacroChangedSlot = s.incorrectMacroChangedSlot := by
  obtain ⟨ev, p, q, i, h⟩ := foldl_deleteDrawCalls_frame s.drawCalls.keys s
  unfold removedHandler deleteAllDrawCalls
  dsimp only
  rw [h]
  exact ⟨Table.foldl_erase_keys _, rfl, rfl, rfl, rfl⟩

/-! ## Blame, notification and retry -/

theorem forgiveOne_find (tp : TechniquePass) (s : Surface) (m' m : ContainerProperty) :
    (forgiveOne tp s m').incorrectMacroToPasses.find m =
      if m' = m then (s.incorrectMacroToPasses.find m).map (fun l => l.erase tp)
      else s.incorrectMacroToPasses.find m := by
  unfold forgiveOne
  by_cases hm : m' = m
  · subst hm
    rw [if_pos rfl]
    cases hfind : s.incorrectMacroToPasses.find m' with
    | none => simp [hfind]
    | some l =>
      dsimp only
      by_cases hin : tp ∈ l
      · rw [if_pos hin]
        split <;> simp
      · rw [if_neg hin]
        simp [hfind, List.erase_of_not_mem hin]
  · rw [if_neg hm]
    cases hfind : s.incorrectMacroToPasses.find m' with
    | none => rfl
    | some l =>
      dsimp only
      by_cases hin : tp ∈ l
      · rw [if_pos hin]
        split <;> simp [Table.find_set_ne _ _ hm]
      · rw [if_neg hin]

theorem forgiveOne_count_le (tp : TechniquePass) (s : Surface) (m' m : ContainerProperty) :
    (((forgiveOne tp s m').incorrectMacroToPasses.find m).getD []).count tp ≤
      ((s.incorrectMacroToPasses.find m).getD []).count tp := by
  rw [forgiveOne_find]
  by_cases hm : m' = m
  · rw [if_pos hm]
    cases s.incorrectMacroToPasses.find m with
    | none => simp
    | some l => simp [List.count_erase_self]
  · rw [if_neg hm]

theorem forgiveOne_count_self (tp : TechniquePass) (s : Surface) (m : ContainerProperty) :
    (((forgiveOne tp s m).incorrectMacroToPasses.find m).getD []).count tp =
      ((s.incorrectMacroToPasses.find m).getD []).count tp - 1 := by
  rw [forgiveOne_find, if_pos rfl]
  cases s.incorrectMacroToPasses.find m with
  | none => simp
  | some l => simp [List.count_erase_self]

theorem forgiveMacros_count_le (tp : TechniquePass) (bs is : List ContainerProperty)
    (s : Surface) (m : ContainerProperty) :
    (((forgiveMacros s bs is tp).incorrectMacroToPasses.find m).getD []).count tp ≤
      ((s.incorrectMacroToPasses.find m).getD []).count tp := by
  unfold forgiveMacros
  induction is generalizing s with
  | nil => exact le_refl _
  | cons m' is ih => exact (ih _).trans (forgiveOne_count_le tp s m' m)

theorem forgiveMacros_count_mem (tp : TechniquePass) (bs is : List ContainerProperty)
    (s : Surface) (m : ContainerProperty) (hm : m ∈ is) :
    (((forgiveMacros s bs is tp).incorrectMacroToPasses.find m).getD []).count tp ≤
      ((s.incorrectMacroToPasses.find m).getD []).count tp - 1 := by
  induction is generalizing s with
  | nil => cases hm
  | cons m' is ih =>
    by_cases h : m' = m
    · subst h
      have h1 := forgiveMacros_count_le tp bs is (forgiveOne tp s m') m'
      have h2 := forgiveOne_count_self tp s m'
      simp only [forgiveMacros, List.foldl_cons] at h1 ⊢
      omega
    · have hm' : m ∈ is := by
        rcases List.mem_cons.mp hm with h' | h'
        · exact absurd h'.symm h
        · exact h'
      have h1 := ih (forgiveOne tp s m') hm'
      have h2 := forgiveOne_count_le tp s m' m
      simp only [forgiveMacros, List.foldl_cons] at h1 ⊢
      omega

theorem blameOne_find_ne {tp : TechniquePass} {s s' : Surface} {m' m : ContainerProperty}
    (h : blameOne tp s m' = .ok s') (hm : m' ≠ m) :
    s'.incorrectMacroToPasses.find m = s.incorrectMacroToPasses.find m := by
  unfold blameOne at h
  simp only at h
  split at h
  · cases h; exact Table.find_set_ne _ _ hm
  · split at h
    · cases h
    · cases h; exact Table.find_set_ne _ _ hm

theorem blameMacros_find_not_mem {tp : TechniquePass} {l : List ContainerProperty}
    {s s' : Surface} {m : ContainerProperty} (h : blameMacros s l tp = .ok s') (hm : m ∉ l) :
    s'.incorrectMacroToPasses.find m = s.incorrectMacroToPasses.find m := by
  induction l generalizing s with
  | nil => simp [blameMacros] at h; subst h; rfl
  | cons m' l ih =>
    simp only [blameMacros] at h
    split at h
    · cases h
    · next s1 h1 =>
      have hne : m' ≠ m := fun e => hm (e ▸ List.mem_cons_self _ _)
      rw [ih h (fun hin => hm (List.mem_cons_of_mem _ hin)), blameOne_find_ne h1 hne]

/-- C10, as stated, fails. On the Surface attached over "T" = [P], where P needs
`NUM_LIGHTS == 2`, `createDrawCalls` with the value 0 blames ("T", P) for
`numLights`. With the value set to 2 the selection for P succeeds, yet firing the
reference-changed notification of `numLights` leaves the state as it is when "T"
is still current (first part), and only switches the technique back from "U" to
"T" when the effect had a fallback technique "U" (second part): in both cases no
selection is retried, no draw call exists and ("T", P) is still blamed. -/
theorem referenceChanged_keeps_blame :
    ((Scene.world 2).selectProgram Scene.passP 1 3 2 ⟨[], [], []⟩).1 = some 102 ∧
    (∃ s1, createDrawCalls (Scene.world 0) 5 (Scene.attached Scene.effectP) 3 = .ok ([], s1) ∧
      s1.technique = "T" ∧
      s1.incorrectMacroToPasses.find Scene.numLights = some [("T", Scene.passP)] ∧
      propertyReferenceChanged (Scene.world 2) 5 s1 2 "numLights" = .ok s1) ∧
    (∃ s1 s2, createDrawCalls (Scene.world 0) 5 (Scene.attached Scene.effectPU) 3 = .ok ([], s1) ∧
      s1.technique = "U" ∧
      s1.incorrectMacroToPasses.find Scene.numLights = some [("T", Scene.passP)] ∧
      propertyReferenceChanged (Scene.world 2) 5 s1 2 "numLights" = .ok s2 ∧
      s2.technique = "T" ∧ s2.drawCalls = [] ∧ s2.nextDrawCall = 0 ∧
      s2.incorrectMacroToPasses.find Scene.numLights = some [("T", Scene.passP)]) :=
  ⟨rfl, ⟨_, rfl, rfl, rfl, rfl⟩, ⟨_, _, rfl, rfl, rfl, rfl, rfl, rfl, rfl, rfl⟩⟩

/-- C10 as amended: in a state where (T, P) is the first record blamed for the
macro `m` and occurs once in its blamed list, and the effect defines T, the
retry listener `badMacroChangedHandler m` only calls `setTechnique T`: it
returns normally, T is the current technique afterwards, "technique changed" is
emitted exactly when T was not current, and the blamed lists are untouched. The
selection for P is retried by the next `initializeDrawCall` for P; when that
selection succeeds with `m` among the integer macros used and not among the
incorrect ones, (T, P) is no longer in the blamed list of `m`. -/
theorem badMacroChangedHandler_then_retry (w : World) (fuel : Nat) (s : Surface)
    (m : ContainerProperty) (T : String) (P : Pass) (blamed : List TechniquePass)
    (r : Container) (target : Node) (others : List Node) (prog : Program) (lists : MacroLists)
    (hblamed : s.incorrectMacroToPasses.find m = some ((T, P) :: blamed))
    (honce : (T, P) ∉ blamed)
    (hdef : s.effect.hasTechnique T = true)
    (hatt : s.targets = target :: others)
    (hsel : getWorkingProgram w { s with technique := T } target.data r target.rootData fuel P
      ⟨[], [], []⟩ = .ok (some prog, lists))
    (hint : m ∈ lists.integerMacros)
    (hnot : m ∉ lists.incorrectIntegerMacros)
    (hres : ∀ x ∈ lists.incorrectIntegerMacros, x.container.isSome) :
    ∃ s1, badMacroChangedHandler s m = .ok s1 ∧
      s1.technique = T ∧
      s1.incorrectMacroToPasses = s.incorrectMacroToPasses ∧
      s1.events = (if s.technique = T then s.events else s.events ++ [.techniqueChanged T]) ∧
      ∃ d s2, initializeDrawCall w fuel s1 P r none = .ok (some d, s2) ∧
        (T, P) ∉ (s2.incorrectMacroToPasses.find m).getD [] := by
  have key : ∀ s1 : Surface, s1.technique = T → s1.effect = s.effect → s1.targets = s.targets →
      s1.incorrectMacroToPasses = s.incorrectMacroToPasses →
      ∃ d s2, initializeDrawCall w fuel s1 P r none = .ok (some d, s2) ∧
        (T, P) ∉ (s2.incorrectMacroToPasses.find m).getD [] := by
    intro s1 ht he hta hreg
    have hsel1 : getWorkingProgram w s1 target.data r target.rootData fuel P ⟨[], [], []⟩ =
        .ok (some prog, lists) := by
      rw [← hsel]
      exact getWorkingProgram_congr w (s := { s with technique := T }) he ht _ _ _ _ _ _
    obtain ⟨s2, hf, hb, hinit⟩ := initializeDrawCall_fresh (hatt ▸ hta) hsel1 hres
    refine ⟨_, _, hinit, ?_⟩
    obtain ⟨i, c, n, hreg2⟩ := registerDrawCall_frame w target r s2 P
    have hproj : (configure (registerDrawCall w target r s2 P).2 s1.nextDrawCall
        prog).incorrectMacroToPasses = s2.incorrectMacroToPasses := by
      unfold configure
      rw [hreg2]
    rw [hproj, blameMacros_find_not_mem hb hnot]
    have h1 := forgiveMacros_count_mem (s1.technique, P) lists.booleanMacros lists.integerMacros
      s1 m hint
    rw [hreg, hblamed, ht] at h1
    have h0 : List.count (T, P) blamed = 0 := List.count_eq_zero.mpr honce
    rw [ht]
    apply List.count_eq_zero.mp
    simp only [Option.getD_some, List.count_cons_self, h0] at h1
    omega
  by_cases hcur : s.technique = T
  · obtain ⟨d, s2, h1, h2⟩ := key s hcur rfl rfl rfl
    refine ⟨s, ?_, hcur, rfl, by rw [if_pos hcur], d, s2, h1, h2⟩
    simp [badMacroChangedHandler, hblamed, setTechnique, hcur]
  · obtain ⟨d, s2, h1, h2⟩ := key
      { s with technique := T, events := s.events ++ [.techniqueChanged T] } rfl rfl rfl rfl
    refine ⟨{ s with technique := T, events := s.events ++ [.techniqueChanged T] }, ?_, rfl, rfl,
      by rw [if_neg hcur], d, s2, h1, h2⟩
    simp [badMacroChangedHandler, hblamed, setTechnique, hcur, hdef]

/-- Witness of the amended C10: the effect with "T" = [P] falling back to
"U" = [Q], after `createDrawCalls` failed with `NUM_LIGHTS = 0` (current
technique "U", ("T", P) blamed for `numLights`), then `NUM_LIGHTS = 2`. -/
theorem badMacroChangedHandler_then_retry_witness :
    (Scene.blamed Scene.effectPU).technique = "U" ∧
    (Scene.blamed Scene.effectPU).incorrectMacroToPasses.find Scene.numLights =
      some [("T", Scene.passP)] ∧
    ∃ s1, badMacroChangedHandler (Scene.blamed Scene.effectPU) Scene.numLights = .ok s1 ∧
      s1.technique = "T" ∧
      s1.incorrectMacroToPasses = (Scene.blamed Scene.effectPU).incorrectMacroToPasses ∧
      s1.events =
        (if (Scene.blamed Scene.effectPU).technique = "T" then (Scene.blamed Scene.effectPU).events
          else (Scene.blamed Scene.effectPU).events ++ [.techniqueChanged "T"]) ∧
      ∃ d s2, initializeDrawCall (Scene.world 2) 5 s1 Scene.passP 3 none = .ok (some d, s2) ∧
        ("T", Scene.passP) ∉ (s2.incorrectMacroToPasses.find Scene.numLights).getD [] :=
  ⟨rfl, rfl,
    badMacroChangedHandler_then_retry (Scene.world 2) 5 (Scene.blamed Scene.effectPU)
      Scene.numLights "T" Scene.passP [] 3 Scene.node [] 102 ⟨[], [Scene.numLights], []⟩
      rfl (by decide) rfl rfl rfl (by decide) (by decide) (by decide)⟩

/-! ## Idempotence of `createDrawCalls` -/

theorem registerDrawCall_settles (w : World) (target : Node) (r : Container) (s : Surface)
    (pass : Pass) :
    ∀ b ∈ pass.macroBindings,
      Settled (registerDrawCall w target r s pass).2
        (resolveProperty w b.2 target.data r target.rootData) :=
  foldl_registerMacroBinding_settles w target.data r target.rootData s.nextDrawCall
    pass.macroBindings _

theorem registerDrawCall_settled_mono (w : World) (target : Node) (r : Container) (s : Surface)
    (pass : Pass) (m : ContainerProperty) (h : Settled s m) :
    Settled (registerDrawCall w target r s pass).2 m :=
  foldl_registerMacroBinding_settled_mono w target.data r target.rootData s.nextDrawCall
    pass.macroBindings _ m h

theorem registerDrawCall_of_settled (w : World) (target : Node) (r : Container) (s : Surface)
    (pass : Pass)
    (h : ∀ b ∈ pass.macroBindings,
      Settled s (resolveProperty w b.2 target.data r target.rootData)) :
    (registerDrawCall w target r s pass).2.numMacroListeners = s.numMacroListeners ∧
      (registerDrawCall w target r s pass).2.macroChangedSlots = s.macroChangedSlots :=
  foldl_registerMacroBinding_of_settled w target.data r target.rootData s.nextDrawCall
    pass.macroBindings _ h

theorem createDrawCallsLoop_listeners (w : World) (fuel : Nat) (r : Container) (target : Node)
    (rest : List Node) :
    ∀ (passes : List Pass) (s : Surface) (acc : List DrawCall) (fb : Bool)
      (res : List DrawCall × Bool) (s' : Surface),
      createDrawCallsLoop w fuel r passes s acc fb = .ok (res, s') →
      s.targets = target :: rest →
      (∀ p ∈ passes, Selects w s target r fuel p) →
      ListenersSettle w s s' target r passes := by
  intro passes
  induction passes with
  | nil =>
    intro s acc fb res s' h _ _
    simp only [createDrawCallsLoop, Except.ok.injEq, Prod.mk.injEq] at h
    obtain ⟨-, rfl⟩ := h
    exact ⟨fun _ hm => hm, fun p hp => absurd hp (List.not_mem_nil _), fun _ => ⟨rfl, rfl⟩⟩
  | cons p ps ih =>
    intro s acc fb res s' h hatt hsel
    obtain ⟨prog, lists, hp, hres⟩ := hsel p (List.mem_cons_self _ _)
    obtain ⟨s2, hf, -, hinit⟩ := initializeDrawCall_fresh hatt hp hres
    obtain ⟨a, b, rfl⟩ := hf
    obtain ⟨i, c, n, hreg⟩ := registerDrawCall_frame w target r
      { s with incorrectMacroToPasses := a, incorrectMacroChangedSlot := b } p
    have hX1 := registerDrawCall_settled_mono w target r
      { s with incorrectMacroToPasses := a, incorrectMacroChangedSlot := b } p
    have hX2 := registerDrawCall_settles w target r
      { s with incorrectMacroToPasses := a, incorrectMacroChangedSlot := b } p
    have hX3 := registerDrawCall_of_settled w target r
      { s with incorrectMacroToPasses := a, incorrectMacroChangedSlot := b } p
    generalize (registerDrawCall w target r
      { s with incorrectMacroToPasses := a, incorrectMacroChangedSlot := b } p).2 = X at *
    simp only [createDrawCallsLoop, hinit] at h
    have step : ∀ s3 : Surface,
        createDrawCallsLoop w fuel r ps s3 (acc ++ [s.nextDrawCall]) fb = .ok (res, s') →
        s3.targets = X.targets → s3.effect = X.effect →
        s3.technique = X.technique → s3.techniqueMacroNames = X.techniqueMacroNames →
        s3.numMacroListeners = X.numMacroListeners → s3.macroChangedSlots = X.macroChangedSlots →
        ListenersSettle w s s' target r (p :: ps) := by
      intro s3 h3 e1 e2 e3 e4 e5 e6
      have hS : ∀ m, Settled X m → Settled s3 m := by
        intro m hm
        unfold Settled at hm ⊢
        rw [e3, e4, e5]
        exact hm
      have hI := ih s3 _ _ _ _ h3 (by rw [e1, hreg]; exact hatt)
        (fun q hq => selects_congr (hsel q (List.mem_cons_of_mem _ hq))
          (by rw [e2, hreg]) (by rw [e3, hreg]))
      refine ⟨fun m hm => hI.mono m (hS m (hX1 m hm)), ?_, ?_⟩
      · intro q hq bnd hb
        rcases List.mem_cons.mp hq with rfl | hq
        · exact hI.mono _ (hS _ (hX2 bnd hb))
        · exact hI.settles q hq bnd hb
      · intro hall
        obtain ⟨f1, f2⟩ := hX3 (hall p (List.mem_cons_self _ _))
        obtain ⟨g1, g2⟩ := hI.fixed (fun q hq bnd hb =>
          hS _ (hX1 _ (hall q (List.mem_cons_of_mem _ hq) bnd hb)))
        exact ⟨g1.trans (e5.trans f1), g2.trans (e6.trans f2)⟩
    cases hh : (configure X s.nextDrawCall prog).drawCalls.has r
    · simp only [hh, Bool.false_eq_true, if_false] at h
      exact step _ h rfl rfl rfl rfl rfl rfl
    · simp only [hh, if_true] at h
      exact step _ h rfl rfl rfl rfl rfl rfl

theorem createDrawCalls_listeners {w : World} {fuel : Nat} {s : Surface} {r : Container}
    {target : Node} {rest : List Node} {passes : List Pass} {l : List DrawCall} {s' : Surface}
    (hatt : s.targets = target :: rest)
    (htech : s.effect.technique s.technique = some passes)
    (hsel : ∀ p ∈ passes, Selects w s target r fuel p)
    (h : createDrawCalls w fuel s r = .ok (l, s')) :
    ListenersSettle w s s' target r passes := by
  obtain ⟨p, q, i, h0⟩ := createDrawCalls_prelude s r
  obtain ⟨s2, hloop, hc⟩ := createDrawCallsLoop_success w fuel r target rest passes
    { s with
      events := s.events ++ ((s.drawCalls.find r).getD []).map Event.drawCallRemoved
      drawCallToPass := p, drawCallToRendererData := q, macroPropertyNameToDrawCalls := i
      drawCalls := (s.drawCalls.erase r).set r [] }
    [] hatt (by simp) (fun x hx => selects_congr (hsel x hx) rfl rfl)
  have hL := createDrawCallsLoop_listeners w fuel r target rest passes _ _ _ _ _ hloop hatt
    (fun x hx => selects_congr (hsel x hx) rfl rfl)
  have hw : watchMacroAdditionOrDeletion s2 r =
      { s2 with macroAddedOrRemovedSlots := macroExistenceWatch target r } := by
    unfold watchMacroAdditionOrDeletion
    rw [hc.targets, hatt]
    rfl
  unfold createDrawCalls at h
  simp only [h0, htech, Table.has_erase_self, Bool.false_eq_true, if_false, Table.find_set_self,
    Option.getD_some, hloop, Except.ok.injEq, Prod.mk.injEq] at h
  obtain ⟨-, rfl⟩ := h
  rw [hw]
  exact ⟨fun m hm => hL.mono m hm, fun x hx b hb => hL.settles x hx b hb,
    fun hall => hL.fixed hall⟩

/-- C5: on an attached Surface whose current technique has the pass list
`passes`, each pass of which gets a program, two calls of `createDrawCalls` in
succession for the same renderer context under the same property values both
return; the second list has the length and the pass sequence of the first, and
after the second call the value-changed subscriptions, the listener reference
counts and the macro-existence subscriptions are those left by the first. -/
theorem createDrawCalls_idempotent (w : World) (fuel : Nat) (s : Surface) (r : Container)
    (target : Node) (rest : List Node) (passes : List Pass)
    (hatt : s.targets = target :: rest)
    (htech : s.effect.technique s.technique = some passes)
    (hsel : ∀ p ∈ passes, Selects w s target r fuel p) :
    ∃ l1 s1 l2 s2, createDrawCalls w fuel s r = .ok (l1, s1) ∧
      createDrawCalls w fuel s1 r = .ok (l2, s2) ∧
      l2.length = l1.length ∧
      l2.map s2.drawCallToPass.find = l1.map s1.drawCallToPass.find ∧
      s2.macroChangedSlots = s1.macroChangedSlots ∧
      s2.numMacroListeners = s1.numMacroListeners ∧
      s2.macroAddedOrRemovedSlots = s1.macroAddedOrRemovedSlots := by
  obtain ⟨s1, h1, c1, w1⟩ := createDrawCalls_success hatt htech hsel
  have hatt1 : s1.targets = target :: rest := c1.targets.trans hatt
  have htech1 : s1.effect.technique s1.technique = some passes := by
    rw [c1.effect, c1.technique]; exact htech
  have hsel1 : ∀ p ∈ passes, Selects w s1 target r fuel p :=
    fun p hp => selects_congr (hsel p hp) c1.effect c1.technique
  obtain ⟨s2, h2, c2, w2⟩ := createDrawCalls_success hatt1 htech1 hsel1
  have L1 := createDrawCalls_listeners hatt htech hsel h1
  have L2 := createDrawCalls_listeners hatt1 htech1 hsel1 h2
  obtain ⟨f1, f2⟩ := L2.fixed L1.settles
  exact ⟨_, s1, _, s2, h1, h2, by simp, c2.passOf.trans c1.passOf.symm, f2, f1,
    w2.trans w1.symm⟩

/-- Witness of C5: technique "T" = [P, Q] with `NUM_LIGHTS = 2`, renderer context 3. -/
theorem createDrawCalls_idempotent_witness :
    (∀ p ∈ [Scene.passP, Scene.passQ],
      Selects (Scene.world 2) (Scene.attached Scene.effectPQ) Scene.node 3 5 p) ∧
    ∃ l1 s1 l2 s2,
      createDrawCalls (Scene.world 2) 5 (Scene.attached Scene.effectPQ) 3 = .ok (l1, s1) ∧
      createDrawCalls (Scene.world 2) 5 s1 3 = .ok (l2, s2) ∧
      l2.length = l1.length ∧
      l2.map s2.drawCallToPass.find = l1.map s1.drawCallToPass.find ∧
      s2.macroChangedSlots = s1.macroChangedSlots ∧
      s2.numMacroListeners = s1.numMacroListeners ∧
      s2.macroAddedOrRemovedSlots = s1.macroAddedOrRemovedSlots :=
  have hsel : ∀ p ∈ [Scene.passP, Scene.passQ],
      Selects (Scene.world 2) (Scene.attached Scene.effectPQ) Scene.node 3 5 p := by
    intro p hp
    simp only [List.mem_cons, List.mem_singleton, List.not_mem_nil, or_false] at hp
    rcases hp with rfl | rfl
    · exact ⟨_, _, rfl, by decide⟩
    · exact ⟨_, _, rfl, by decide⟩
  ⟨hsel,
    createDrawCalls_idempotent (Scene.world 2) 5 (Scene.attached Scene.effectPQ) 3 Scene.node []
      [Scene.passP, Scene.passQ] rfl rfl hsel⟩

/-! ## Attach and detach -/

/-- C11: on the Surface attached to the node (material 11, geometry data 10,
effect data 12 layered into container 1), `targetRemovedHandler` clears the
removal listener and leaves no draw-call list, yet the effect-data provider is
still layered in the node's container: the handler removes the geometry data
twice and the effect data never. -/
theorem targetRemovedHandler_leaves_effect_data :
    (Scene.attached Scene.effectP).providers.find 1 = some [11, 10, 12] ∧
    (Scene.attached Scene.effectP).material = 11 ∧
    (Scene.attached Scene.effectP).geometryData = 10 ∧
    (Scene.attached Scene.effectP).effect.data = 12 ∧
    (targetRemovedHandler (Scene.attached Scene.effectP) Scene.node).providers.find 1 =
      some [12] ∧
    (targetRemovedHandler (Scene.attached Scene.effectP) Scene.node).removedSlot = false ∧
    (targetRemovedHandler (Scene.attached Scene.effectP) Scene.node).drawCalls = [] :=
  ⟨rfl, rfl, rfl, rfl, rfl, rfl, rfl⟩

/-! ## Listener counts and subscriptions -/

/-- C13: technique "T" = [P] with `NUM_LIGHTS = 2`. After `createDrawCalls` the
macro `numLights` has count 1 and one value-changed subscription.
`deleteAllDrawCalls` (run by `removedHandler`) clears the subscriptions but not
the counts, so the count is still 1 with no subscription; a new
`createDrawCalls` then finds the count different from 0, does not subscribe, and
leaves a live draw call bound to `numLights` with count 1 and no subscription. -/
theorem deleteAllDrawCalls_keeps_counts :
    (Scene.compiled Scene.effectP).numMacroListeners.find Scene.numLights = some 1 ∧
    (Scene.compiled Scene.effectP).macroChangedSlots.has Scene.numLights = true ∧
    (removedHandler (Scene.compiled Scene.effectP)).numMacroListeners.find Scene.numLights =
      some 1 ∧
    (removedHandler (Scene.compiled Scene.effectP)).macroChangedSlots.has Scene.numLights =
      false ∧
    ∃ s', createDrawCalls (Scene.world 2) 5 (removedHandler (Scene.compiled Scene.effectP)) 3 =
        .ok ([1], s') ∧
      s'.drawCalls.find 3 = some [1] ∧
      s'.macroPropertyNameToDrawCalls.find "numLights" = some [1] ∧
      s'.numMacroListeners.find Scene.numLights = some 1 ∧
      s'.macroChangedSlots.has Scene.numLights = false :=
  ⟨rfl, rfl, rfl, rfl, _, rfl, rfl, rfl, rfl, rfl⟩

/-! ## The reverse maps -/

/-- C14: technique "T" = [P, Q] with `NUM_LIGHTS = 0`. After `createDrawCalls`
draw call 0, created for Q after P had failed, has an entry in both reverse
maps although the Surface holds no draw-call list at all. -/
theorem createDrawCalls_leaves_reverse_entries :
    ∃ l s', createDrawCalls (Scene.world 0) 5 (Scene.attached Scene.effectPQ) 3 = .ok (l, s') ∧
      s'.drawCalls = [] ∧
      s'.drawCallToPass.has 0 = true ∧
      s'.drawCallToRendererData.has 0 = true :=
  ⟨_, _, rfl, rfl, rfl, rfl⟩

/-! ## The technique the retry listener switches to -/

/-- C20, as stated, fails: with "T" = [P] falling back to "U" = [Q] and
`NUM_LIGHTS = 0`, `createDrawCalls` falls back from "T" to "U" and blames
("T", P) for `numLights`. `badMacroChangedHandler` then calls
`setTechnique "T"`, the technique that failed, and not `setTechnique "U"`, the
technique the Surface fell back to (which would change nothing): the current
technique moves from "U" to "T". -/
theorem badMacroChangedHandler_switches_to_failed :
    (Scene.attached Scene.effectPU).technique = "T" ∧
    (Scene.attached Scene.effectPU).effect.fallback "T" = some "U" ∧
    (Scene.blamed Scene.effectPU).technique = "U" ∧
    (Scene.blamed Scene.effectPU).incorrectMacroToPasses.find Scene.numLights =
      some [("T", Scene.passP)] ∧
    badMacroChangedHandler (Scene.blamed Scene.effectPU) Scene.numLights =
      setTechnique (Scene.blamed Scene.effectPU) "T" ∧
    setTechnique (Scene.blamed Scene.effectPU) "U" = .ok (Scene.blamed Scene.effectPU) ∧
    ∃ s', badMacroChangedHandler (Scene.blamed Scene.effectPU) Scene.numLights = .ok s' ∧
      s'.technique = "T" :=
  ⟨rfl, rfl, rfl, rfl, rfl, rfl, _, rfl, rfl⟩

/-- C20 as amended: for a macro `m` whose blamed list starts with the record
(T, P), `badMacroChangedHandler m` is the call `setTechnique T`, where T is the
technique recorded in that first blamed record, that is the technique that was
current when `m` made P fail (not the technique fallen back to); for a macro
with no registry entry it returns the state unchanged, so nothing is emitted. -/
theorem badMacroChangedHandler_first_blamed (s : Surface) (m : ContainerProperty) :
    (∀ T P blamed, s.incorrectMacroToPasses.find m = some ((T, P) :: blamed) →
        badMacroChangedHandler s m = setTechnique s T) ∧
      (s.incorrectMacroToPasses.find m = none → badMacroChangedHandler s m = .ok s) := by
  constructor
  · intro T P blamed h
    simp [badMacroChangedHandler, h]
  · intro h
    simp [badMacroChangedHandler, h]

/-- Witness of the amended C20 on the state blamed over "T" = [P], "U" = [Q], and
on the freshly attached Surface, whose registry is empty. -/
theorem badMacroChangedHandler_first_blamed_witness :
    badMacroChangedHandler (Scene.blamed Scene.effectPU) Scene.numLights =
        setTechnique (Scene.blamed Scene.effectPU) "T" ∧
      badMacroChangedHandler (Scene.attached Scene.effectPU) Scene.numLights =
        .ok (Scene.attached Scene.effectPU) :=
  ⟨(badMacroChangedHandler_first_blamed (Scene.blamed Scene.effectPU) Scene.numLights).1
      "T" Scene.passP [] rfl,
    (badMacroChangedHandler_first_blamed (Scene.attached Scene.effectPU) Scene.numLights).2 rfl⟩

/-! ## The invariant of the incorrect-macro registry -/

namespace Table

variable {κ ν : Type} [DecidableEq κ]

theorem has_set_ne (t : Table κ ν) {k k' : κ} (v : ν) (h : k ≠ k') :
    (t.set k v).has k' = t.has k' := by
  simp [has, find_set_ne _ _ h]

theorem has_erase_ne (t : Table κ ν) {k k' : κ} (h : k ≠ k') :
    (t.erase k).has k' = t.has k' := by
  simp [has, find_erase_ne _ h]

end Table

theorem forgiveOne_registryOk (tp : TechniquePass) (s : Surface) (m' : ContainerProperty)
    (hok : RegistryOk s) : RegistryOk (forgiveOne tp s m') := by
  unfold forgiveOne
  cases hfind : s.incorrectMacroToPasses.find m' with
  | none => exact hok
  | some l =>
    dsimp only
    have hl := hok m'
    rw [hfind] at hl
    simp only [Option.getD_some] at hl
    by_cases hin : tp ∈ l
    · rw [if_pos hin]
      have hne : l ≠ [] := List.ne_nil_of_mem hin
      have hhas : s.incorrectMacroChangedSlot.has m' = true := hl.2.mpr hne
      by_cases hemp : (l.erase tp).isEmpty = true
      · simp only [hemp, hhas, Bool.and_self, if_true]
        intro m
        by_cases hm : m' = m
        · subst hm
          have hnil : l.erase tp = [] := List.isEmpty_iff.mp hemp
          simp [hnil]
        · simp only [Table.find_set_ne _ _ hm, Table.has_erase_ne _ hm]
          exact hok m
      · have hemp' : (l.erase tp).isEmpty = false := by simpa using hemp
        simp only [hemp', Bool.false_and, Bool.false_eq_true, if_false]
        intro m
        by_cases hm : m' = m
        · subst hm
          simp only [Table.find_set_self, Option.getD_some]
          refine ⟨hl.1.erase tp, ?_⟩
          simp only [hhas, true_iff]
          intro hnil
          rw [hnil] at hemp
          exact hemp rfl
        · simp only [Table.find_set_ne _ _ hm]
          exact hok m
    · rw [if_neg hin]
      exact hok

theorem forgiveMacros_registryOk (tp : TechniquePass) (bs is : List ContainerProperty)
    (s : Surface) (hok : RegistryOk s) : RegistryOk (forgiveMacros s bs is tp) := by
  unfold forgiveMacros
  induction is generalizing s with
  | nil => exact hok
  | cons m is ih => exact ih _ (forgiveOne_registryOk tp s m hok)

theorem blameOne_registryOk {tp : TechniquePass} {s s' : Surface} {m' : ContainerProperty}
    (hok : RegistryOk s) (h : blameOne tp s m' = .ok s') : RegistryOk s' := by
  have hl := (hok m').1
  have key : ∀ slots : Table ContainerProperty Slot, slots.has m' = true →
      (∀ m, m' ≠ m → slots.has m = s.incorrectMacroChangedSlot.has m) →
      RegistryOk { s with
        incorrectMacroToPasses := s.incorrectMacroToPasses.set m'
          (if tp ∈ (s.incorrectMacroToPasses.find m').getD [] then
            (s.incorrectMacroToPasses.find m').getD []
          else (s.incorrectMacroToPasses.find m').getD [] ++ [tp])
        incorrectMacroChangedSlot := slots } := by
    intro slots hself hother m
    by_cases hm : m' = m
    · subst hm
      simp only [Table.find_set_self, Option.getD_some, hself, true_iff]
      by_cases hin : tp ∈ (s.incorrectMacroToPasses.find m').getD []
      · rw [if_pos hin]
        exact ⟨hl, List.ne_nil_of_mem hin⟩
      · rw [if_neg hin]
        refine ⟨?_, by simp⟩
        rw [← List.concat_eq_append]
        exact hl.concat hin
    · simp only [Table.find_set_ne _ _ hm, hother m hm]
      exact hok m
  unfold blameOne at h
  simp only at h
  split at h
  · next hhas =>
    cases h
    exact key _ hhas (fun _ _ => rfl)
  · split at h
    · cases h
    · cases h
      exact key _ (Table.has_set_self _ _ _) (fun m hm => Table.has_set_ne _ _ hm)

theorem blameMacros_registryOk {tp : TechniquePass} {l : List ContainerProperty}
    {s s' : Surface} (hok : RegistryOk s) (h : blameMacros s l tp = .ok s') : RegistryOk s' := by
  induction l generalizing s with
  | nil => simp [blameMacros] at h; subst h; exact hok
  | cons m l ih =>
    simp only [blameMacros] at h
    split at h
    · cases h
    · next s1 h1 => exact ih (blameOne_registryOk hok h1) h

theorem registryOk_of_reachable {s : Surface} (h : RegistryReachable s) : RegistryOk s := by
  induction h with
  | empty s h1 h2 =>
    intro m
    simp [h1, h2, Table.find, Table.has]
  | forgive s bs is tp _ ih => exact forgiveMacros_registryOk tp bs is s ih
  | blame s s' l tp _ hb ih => exact blameMacros_registryOk ih hb
  | other s s' _ h1 h2 ih =>
    intro m
    rw [h1, h2]
    exact ih m

/-- C19: in every state reached from an empty registry through `blameMacros`
and `forgiveMacros`, a macro has a retry listener exactly when some
(technique, pass) pair is blamed for it, no pair occurs twice in its blamed
list, and whenever the retry listener exists the blamed list that
`badMacroChangedHandler` reads is not empty: the handler is the call of
`setTechnique` on the technique of its first record. -/
theorem registry_invariant (s : Surface) (h : RegistryReachable s) (m : ContainerProperty) :
    (s.incorrectMacroChangedSlot.has m = true ↔
        ∃ tp, tp ∈ (s.incorrectMacroToPasses.find m).getD []) ∧
      ((s.incorrectMacroToPasses.find m).getD []).Nodup ∧
      (s.incorrectMacroChangedSlot.has m = true →
        ∃ tp blamed, s.incorrectMacroToPasses.find m = some (tp :: blamed) ∧
          badMacroChangedHandler s m = setTechnique s tp.1) := by
  obtain ⟨hnd, hiff⟩ := registryOk_of_reachable h m
  refine ⟨?_, hnd, ?_⟩
  · rw [hiff]
    exact ⟨fun hne => List.exists_mem_of_ne_nil _ hne, fun ⟨tp, htp⟩ => List.ne_nil_of_mem htp⟩
  · intro hhas
    have hne := hiff.mp hhas
    cases hfind : s.incorrectMacroToPasses.find m with
    | none => simp [hfind] at hne
    | some l =>
      cases l with
      | nil => simp [hfind] at hne
      | cons tp blamed => exact ⟨tp, blamed, rfl, by simp [badMacroChangedHandler, hfind]⟩

/-- Witness of C19: `numLights` blamed for ("T", P) from the empty registry of the
freshly attached Surface. -/
theorem registry_invariant_witness :
    ∃ s', blameMacros (Scene.attached Scene.effectP) [Scene.numLights] ("T", Scene.passP) =
        .ok s' ∧
      (s'.incorrectMacroChangedSlot.has Scene.numLights = true ↔
        ∃ tp, tp ∈ (s'.incorrectMacroToPasses.find Scene.numLights).getD []) ∧
      ((s'.incorrectMacroToPasses.find Scene.numLights).getD []).Nodup ∧
      (s'.incorrectMacroChangedSlot.has Scene.numLights = true →
        ∃ tp blamed, s'.incorrectMacroToPasses.find Scene.numLights = some (tp :: blamed) ∧
          badMacroChangedHandler s' Scene.numLights = setTechnique s' tp.1) :=
  ⟨_, rfl,
    registry_invariant _
      (RegistryReachable.blame (Scene.attached Scene.effectP) _ [Scene.numLights]
        ("T", Scene.passP) (RegistryReachable.empty _ rfl rfl) rfl)
      Scene.numLights⟩

/-! ## Blaming the requested pass -/

theorem blameOne_find_self {tp : TechniquePass} {s s' : Surface} {m : ContainerProperty}
    (h : blameOne tp s m = .ok s') :
    s'.incorrectMacroToPasses.find m =
      some (if tp ∈ (s.incorrectMacroToPasses.find m).getD [] then
          (s.incorrectMacroToPasses.find m).getD []
        else (s.incorrectMacroToPasses.find m).getD [] ++ [tp]) := by
  unfold blameOne at h
  simp only at h
  split at h
  · cases h; exact Table.find_set_self _ _ _
  · split at h
    · cases h
    · cases h; exact Table.find_set_self _ _ _

theorem blameOne_has_self {tp : TechniquePass} {s s' : Surface} {m : ContainerProperty}
    (h : blameOne tp s m = .ok s') : s'.incorrectMacroChangedSlot.has m = true := by
  unfold blameOne at h
  simp only at h
  split at h
  · next hhas => cases h; exact hhas
  · split at h
    · cases h
    · cases h; exact Table.has_set_self _ _ _

theorem blameOne_has_mono {tp : TechniquePass} {s s' : Surface} {m' m : ContainerProperty}
    (h : blameOne tp s m' = .ok s') (hm : s.incorrectMacroChangedSlot.has m = true) :
    s'.incorrectMacroChangedSlot.has m = true := by
  by_cases hmm : m' = m
  · subst hmm; exact blameOne_has_self h
  · unfold blameOne at h
    simp only at h
    split at h
    · cases h; exact hm
    · split at h
      · cases h
      · cases h
        simp only [Table.has_set_ne _ _ hmm]
        exact hm

theorem blameMacros_has_mono {tp : TechniquePass} {l : List ContainerProperty}
    {s s' : Surface} {m : ContainerProperty} (h : blameMacros s l tp = .ok s')
    (hm : s.incorrectMacroChangedSlot.has m = true) :
    s'.incorrectMacroChangedSlot.has m = true := by
  induction l generalizing s with
  | nil => simp [blameMacros] at h; subst h; exact hm
  | cons m' l ih =>
    simp only [blameMacros] at h
    split at h
    · cases h
    · next s1 h1 => exact ih h (blameOne_has_mono h1 hm)

/-- After `blameMacros` every macro of the list has a retry listener and its
blamed list is the former one with the pair appended unless it was there. -/
theorem blameMacros_find_mem {tp : TechniquePass} {l : List ContainerProperty}
    {s s' : Surface} {m : ContainerProperty} (h : blameMacros s l tp = .ok s') (hm : m ∈ l) :
    s'.incorrectMacroToPasses.find m =
        some (if tp ∈ (s.incorrectMacroToPasses.find m).getD [] then
            (s.incorrectMacroToPasses.find m).getD []
          else (s.incorrectMacroToPasses.find m).getD [] ++ [tp]) ∧
      s'.incorrectMacroChangedSlot.has m = true := by
  induction l generalizing s with
  | nil => cases hm
  | cons m' l ih =>
    simp only [blameMacros] at h
    split at h
    · cases h
    · next s1 h1 =>
      by_cases hin : m ∈ l
      · obtain ⟨f1, f2⟩ := ih h hin
        refine ⟨?_, f2⟩
        rw [f1]
        by_cases hmm : m' = m
        · subst hmm
          rw [blameOne_find_self h1]
          simp only [Option.getD_some]
          split <;> simp_all
        · rw [blameOne_find_ne h1 hmm]
      · have hmm : m' = m := by
          rcases List.mem_cons.mp hm with h' | h'
          · exact h'.symm
          · exact absurd h' hin
        subst hmm
        exact ⟨by rw [blameMacros_find_not_mem h hin, blameOne_find_self h1],
          blameMacros_has_mono h (blameOne_has_self h1)⟩

theorem forgiveMacros_nodup (tp : TechniquePass) (bs is : List ContainerProperty)
    (s : Surface) (m : ContainerProperty)
    (h : ((s.incorrectMacroToPasses.find m).getD []).Nodup) :
    (((forgiveMacros s bs is tp).incorrectMacroToPasses.find m).getD []).Nodup := by
  unfold forgiveMacros
  induction is generalizing s with
  | nil => exact h
  | cons m' is ih =>
    apply ih
    rw [forgiveOne_find]
    split
    · cases hf : s.incorrectMacroToPasses.find m with
      | none => simp
      | some l =>
        rw [hf] at h
        simpa using h.erase tp
    · exact h

/-- C15: when the selection of pass P and its whole fallback chain end without
a program, reporting the failure list `lists.incorrectIntegerMacros` (every
macro of it resolved, and with a duplicate-free blamed list before the call),
`initializeDrawCall` returns none, creates no draw call and leaves the reverse
maps and the macro index untouched; afterwards the pair of the current
technique and P, the pass that was asked for, occurs exactly once in the blamed
list of every macro of the failure list, and each of them has a retry listener. -/
theorem initializeDrawCall_blames_requested (w : World) (fuel : Nat) (s : Surface) (P : Pass)
    (r : Container) (target : Node) (rest : List Node) (lists : MacroLists)
    (dc : Option DrawCall)
    (hatt : s.targets = target :: rest)
    (hsel : getWorkingProgram w s target.data r target.rootData fuel P ⟨[], [], []⟩ =
      .ok (none, lists))
    (hres : ∀ m ∈ lists.incorrectIntegerMacros, m.container.isSome)
    (hnodup : ∀ m ∈ lists.incorrectIntegerMacros,
      ((s.incorrectMacroToPasses.find m).getD []).Nodup) :
    ∃ s', initializeDrawCall w fuel s P r dc = .ok (none, s') ∧
      s'.nextDrawCall = s.nextDrawCall ∧
      s'.drawCallToPass = s.drawCallToPass ∧
      s'.drawCallToRendererData = s.drawCallToRendererData ∧
      s'.macroPropertyNameToDrawCalls = s.macroPropertyNameToDrawCalls ∧
      s'.drawCalls = s.drawCalls ∧
      ∀ m ∈ lists.incorrectIntegerMacros,
        (s.technique, P) ∈ (s'.incorrectMacroToPasses.find m).getD [] ∧
        ((s'.incorrectMacroToPasses.find m).getD []).Nodup ∧
        s'.incorrectMacroChangedSlot.has m = true := by
  obtain ⟨s2, hf, hb, hinit⟩ := initializeDrawCall_none hatt hsel hres dc
  refine ⟨s2, hinit, ?_, ?_, ?_, ?_, ?_, ?_⟩
  · obtain ⟨a, b, rfl⟩ := hf; rfl
  · obtain ⟨a, b, rfl⟩ := hf; rfl
  · obtain ⟨a, b, rfl⟩ := hf; rfl
  · obtain ⟨a, b, rfl⟩ := hf; rfl
  · obtain ⟨a, b, rfl⟩ := hf; rfl
  · intro m hm
    obtain ⟨f1, f2⟩ := blameMacros_find_mem hb hm
    have hnd := forgiveMacros_nodup (s.technique, P) lists.booleanMacros lists.integerMacros
      s m (hnodup m hm)
    rw [f1]
    simp only [Option.getD_some]
    split
    · next hin => exact ⟨hin, hnd, f2⟩
    · next hin =>
      refine ⟨by simp, ?_, f2⟩
      rw [← List.concat_eq_append]
      exact hnd.concat hin

/-- Witness of C15: pass P with `NUM_LIGHTS = 0` on the Surface attached over
"T" = [P]; the failure list is [`numLights`]. -/
theorem initializeDrawCall_blames_requested_witness :
    ∃ s', initializeDrawCall (Scene.world 0) 5 (Scene.attached Scene.effectP) Scene.passP 3 none =
        .ok (none, s') ∧
      s'.nextDrawCall = (Scene.attached Scene.effectP).nextDrawCall ∧
      s'.drawCallToPass = (Scene.attached Scene.effectP).drawCallToPass ∧
      s'.drawCallToRendererData = (Scene.attached Scene.effectP).drawCallToRendererData ∧
      s'.macroPropertyNameToDrawCalls =
        (Scene.attached Scene.effectP).macroPropertyNameToDrawCalls ∧
      s'.drawCalls = (Scene.attached Scene.effectP).drawCalls ∧
      ∀ m ∈ (⟨[], [], [Scene.numLights]⟩ : MacroLists).incorrectIntegerMacros,
        ((Scene.attached Scene.effectP).technique, Scene.passP) ∈
            (s'.incorrectMacroToPasses.find m).getD [] ∧
          ((s'.incorrectMacroToPasses.find m).getD []).Nodup ∧
          s'.incorrectMacroChangedSlot.has m = true :=
  initializeDrawCall_blames_requested (Scene.world 0) 5 (Scene.attached Scene.effectP)
    Scene.passP 3 Scene.node [] ⟨[], [], [Scene.numLights]⟩ none rfl rfl (by decide) (by decide)

/-! ## `macroChangedHandler` on `REF_CHANGED` -/

theorem reinitializeDrawCalls_reconfigured {w : World} {fuel : Nat} {l : List DrawCall}
    {s s' : Surface} (h : Reconfigured w fuel l s s') :
    reinitializeDrawCalls w fuel l s = .ok s' := by
  induction h with
  | nil s => rfl
  | cons d rest s s1 s2 pass rd hp hr hi _ ih =>
    simp only [reinitializeDrawCalls, hp, hr, hi]
    exact ih

theorem reinitializeDrawCalls_first_failure {w : World} {fuel : Nat} {pre : List DrawCall}
    {s sMid : Surface} (h : Reconfigured w fuel pre s sMid) (d : DrawCall)
    (post : List DrawCall) (pass : Pass) (rd : Container) (s1 : Surface)
    (hp : sMid.drawCallToPass.find d = some pass)
    (hr : sMid.drawCallToRendererData.find d = some rd)
    (hfail : initializeDrawCall w fuel sMid pass rd (some d) = .ok (none, s1)) :
    reinitializeDrawCalls w fuel (pre ++ d :: post) s =
      switchToFallbackTechnique (if s1.drawCalls.has rd then deleteDrawCalls s1 rd else s1) := by
  induction h with
  | nil s =>
    simp only [List.nil_append, reinitializeDrawCalls, hp, hr, hfail]
  | cons d' rest s s1' s2 pass' rd' hp' hr' hi _ ih =>
    simp only [List.cons_append, reinitializeDrawCalls, hp', hr', hi]
    exact ih hp hr hfail

/-- C17: on a `REF_CHANGED` event for a property name, while draw-call lists
exist and the name is indexed with the draw calls `idx`: if all of them can be
reconfigured in index order the handler returns the state after the last one;
and if the draw calls before `d` are reconfigured in index order and `d` gets
no program, the handler is exactly one call of `switchToFallbackTechnique` on
the state in which the draw calls of the renderer context of `d` have been
destroyed, whatever draw calls follow `d` in the index: none of them is
reconfigured. -/
theorem macroChangedHandler_refChanged_first_failure (w : World) (fuel : Nat) (s : Surface)
    (c : Container) (name : String) (idx : List DrawCall)
    (hlive : s.drawCalls ≠ [])
    (hidx : s.macroPropertyNameToDrawCalls.find name = some idx) :
    (∀ s', Reconfigured w fuel idx s s' →
        macroChangedHandler w fuel s c name .REF_CHANGED = .ok s') ∧
      (∀ pre d post sMid pass rd s1, idx = pre ++ d :: post →
        Reconfigured w fuel pre s sMid →
        sMid.drawCallToPass.find d = some pass →
        sMid.drawCallToRendererData.find d = some rd →
        initializeDrawCall w fuel sMid pass rd (some d) = .ok (none, s1) →
        macroChangedHandler w fuel s c name .REF_CHANGED =
            switchToFallbackTechnique
              (if s1.drawCalls.has rd then deleteDrawCalls s1 rd else s1) ∧
          (if s1.drawCalls.has rd then deleteDrawCalls s1 rd else s1).drawCalls.find rd =
            none) := by
  have hne : s.drawCalls.isEmpty = false := by
    cases hd : s.drawCalls with
    | nil => exact absurd hd hlive
    | cons e t => rfl
  have hhas : s.macroPropertyNameToDrawCalls.has name = true := by simp [Table.has, hidx]
  have hunfold : macroChangedHandler w fuel s c name .REF_CHANGED =
      reinitializeDrawCalls w fuel idx s := by
    simp [macroChangedHandler, macroChangedHandlerRefChanged, hne, hhas, hidx]
  refine ⟨fun s' h => by rw [hunfold]; exact reinitializeDrawCalls_reconfigured h, ?_⟩
  intro pre d post sMid pass rd s1 hsplit hpre hp hr hfail
  refine ⟨by rw [hunfold, hsplit]
             exact reinitializeDrawCalls_first_failure hpre d post pass rd s1 hp hr hfail, ?_⟩
  cases hh : s1.drawCalls.has rd
  · simpa [Table.has] using hh
  · obtain ⟨p, q, i, hdel⟩ := deleteDrawCalls_frame s1 rd
    simp only [if_true, hdel, Table.find_erase_self]

/-- Witness of C17: technique "T" = [P, R], both passes binding `numLights`,
compiled with `NUM_LIGHTS = 2` (draw calls 0 and 1 indexed under `numLights`),
then `REF_CHANGED` with `NUM_LIGHTS = 0`: draw call 0 gets no program. -/
theorem macroChangedHandler_refChanged_first_failure_witness :
    (Scene.compiled Scene.effectPR).macroPropertyNameToDrawCalls.find "numLights" =
      some [0, 1] ∧
    ∃ s1, initializeDrawCall (Scene.world 0) 5 (Scene.compiled Scene.effectPR) Scene.passP 3
        (some 0) = .ok (none, s1) ∧
      macroChangedHandler (Scene.world 0) 5 (Scene.compiled Scene.effectPR) 2 "numLights"
          .REF_CHANGED =
        switchToFallbackTechnique (if s1.drawCalls.has 3 then deleteDrawCalls s1 3 else s1) ∧
      (if s1.drawCalls.has 3 then deleteDrawCalls s1 3 else s1).drawCalls.find 3 = none :=
  ⟨rfl, _, rfl,
    (macroChangedHandler_refChanged_first_failure (Scene.world 0) 5
      (Scene.compiled Scene.effectPR) 2 "numLights" [0, 1] (by decide) rfl).2
      [] 0 [1] (Scene.compiled Scene.effectPR) Scene.passP 3 _ rfl (Reconfigured.nil _) rfl rfl
      rfl⟩

/-! ## The macro names of a technique -/

theorem foldl_mem_iff {σ α : Type} (f : σ → α → σ) (M : σ → Prop) (Q : α → Prop)
    (h : ∀ acc x, M (f acc x) ↔ M acc ∨ Q x) (l : List α) (acc : σ) :
    M (l.foldl f acc) ↔ M acc ∨ ∃ x ∈ l, Q x := by
  induction l generalizing acc with
  | nil => simp
  | cons x l ih =>
    rw [List.foldl_cons, ih, h]
    simp only [List.mem_cons, exists_eq_or_imp, or_assoc]

theorem insertTechniqueMacroName_mem (T₀ : String) (names : Table String (List String))
    (b : String × String) (T n : String) :
    n ∈ ((insertTechniqueMacroName T₀ names b).find T).getD [] ↔
      n ∈ (names.find T).getD [] ∨ (T₀ = T ∧ b.2 = n) := by
  unfold insertTechniqueMacroName
  dsimp only
  by_cases hT : T₀ = T
  · subst hT
    simp only [Table.find_set_self, Option.getD_some, true_and]
    split
    · next hin =>
      constructor
      · exact fun h => Or.inl h
      · rintro (h | rfl)
        · exact h
        · exact hin
    · simp only [List.mem_append, List.mem_singleton]
      constructor
      · rintro (h | h)
        · exact Or.inl h
        · exact Or.inr h.symm
      · rintro (h | h)
        · exact Or.inl h
        · exact Or.inr h.symm
  · simp [Table.find_set_ne _ _ hT, hT]

/-- After `initializeTechniqueMacroNames` the names tracked for the current
technique are the properties read by the macro bindings of its passes. -/
theorem tracked_initializeTechniqueMacroNames (s : Surface) (name : String) :
    Tracked (initializeTechniqueMacroNames s) name ↔ s.effect.references s.technique name := by
  have hT : Tracked (initializeTechniqueMacroNames s) name ↔
      name ∈ (((initializeTechniqueMacroNames s).techniqueMacroNames.find s.technique).getD []) := by
    unfold Tracked
    show (∃ names, (initializeTechniqueMacroNames s).techniqueMacroNames.find s.technique =
      some names ∧ name ∈ names) ↔ _
    cases (initializeTechniqueMacroNames s).techniqueMacroNames.find s.technique with
    | none => simp
    | some l => simp
  rw [hT]
  unfold initializeTechniqueMacroNames Effect.references
  dsimp only
  rw [foldl_mem_iff
    (fun (names : Table String (List String)) (technique : String × List Pass) =>
      technique.2.foldl
        (fun names pass => pass.macroBindings.foldl (insertTechniqueMacroName technique.1) names)
        names)
    (fun names => name ∈ (names.find s.technique).getD [])
    (fun technique => technique.1 = s.technique ∧
      ∃ p ∈ technique.2, ∃ b ∈ p.macroBindings, b.2 = name)]
  · simp [Table.find]
  · intro acc technique
    rw [foldl_mem_iff
      (fun (names : Table String (List String)) (pass : Pass) =>
        pass.macroBindings.foldl (insertTechniqueMacroName technique.1) names)
      (fun names => name ∈ (names.find s.technique).getD [])
      (fun pass => technique.1 = s.technique ∧ ∃ b ∈ pass.macroBindings, b.2 = name)]
    · constructor
      · rintro (h | ⟨p, hp, ht, hb⟩)
        · exact Or.inl h
        · exact Or.inr ⟨ht, p, hp, hb⟩
      · rintro (h | ⟨ht, p, hp, hb⟩)
        · exact Or.inl h
        · exact Or.inr ⟨p, hp, ht, hb⟩
    · intro acc' pass
      rw [foldl_mem_iff (insertTechniqueMacroName technique.1)
        (fun names => name ∈ (names.find s.technique).getD [])
        (fun b => technique.1 = s.technique ∧ b.2 = name)]
      · constructor
        · rintro (h | ⟨b, hb, ht, hn⟩)
          · exact Or.inl h
          · exact Or.inr ⟨ht, b, hb, hn⟩
        · rintro (h | ⟨ht, b, hb, hn⟩)
          · exact Or.inl h
          · exact Or.inr ⟨b, hb, ht, hn⟩
      · intro acc'' b
        exact insertTechniqueMacroName_mem technique.1 acc'' b s.technique name

/-! ## `ADDED` and `REMOVED` events -/

theorem listenersKept_trans {s₁ s₂ s₃ : Surface} (h₁ : ListenersKept s₁ s₂)
    (h₂ : ListenersKept s₂ s₃) : ListenersKept s₁ s₃ :=
  ⟨h₂.1.trans h₁.1, h₂.2.trans h₁.2⟩

theorem initializeDrawCall_reconfigure_kept {w : World} {fuel : Nat} {s s' : Surface}
    {pass : Pass} {r : Container} {d : DrawCall} {res : Option DrawCall}
    (h : initializeDrawCall w fuel s pass r (some d) = .ok (res, s')) : ListenersKept s s' := by
  unfold initializeDrawCall at h
  split at h
  · cases h
  · split at h
    · cases h
    · next program lists _ =>
      dsimp only at h
      split at h
      · cases h
      · next s2 hb =>
        have hf : RegistryFrame s s2 :=
          registryFrame_trans (forgiveMacros_frame s _ _ _) (blameMacros_frame hb)
        obtain ⟨a, b, rfl⟩ := hf
        split at h
        · cases h; exact ⟨rfl, rfl⟩
        · cases h; exact ⟨rfl, rfl⟩

theorem setTechnique_kept {s s' : Surface} {t : String} (h : setTechnique s t = .ok s') :
    ListenersKept s s' := by
  unfold setTechnique at h
  split at h
  · cases h; exact ⟨rfl, rfl⟩
  · dsimp only at h
    split at h
    · cases h
    · cases h; exact ⟨rfl, rfl⟩

theorem switchToFallbackTechnique_kept {s s' : Surface}
    (h : switchToFallbackTechnique s = .ok s') : ListenersKept s s' := by
  unfold switchToFallbackTechnique at h
  split at h
  · split at h
    · exact setTechnique_kept h
    · cases h
  · cases h; exact ⟨rfl, rfl⟩

theorem deleteDrawCalls_kept (s : Surface) (r : Container) :
    ListenersKept s (deleteDrawCalls s r) := by
  obtain ⟨p, q, i, h⟩ := deleteDrawCalls_frame s r
  rw [h]
  exact ⟨rfl, rfl⟩

theorem reinitializeDrawCalls_kept (w : World) (fuel : Nat) (l : List DrawCall) :
    ∀ (s s' : Surface), reinitializeDrawCalls w fuel l s = .ok s' → ListenersKept s s' := by
  induction l with
  | nil =>
    intro s s' h
    simp only [reinitializeDrawCalls, Except.ok.injEq] at h
    subst h
    exact ⟨rfl, rfl⟩
  | cons d l ih =>
    intro s s' h
    unfold reinitializeDrawCalls at h
    split at h
    · next pass rd _ _ =>
      split at h
      · cases h
      · next s1 hi =>
        exact listenersKept_trans (initializeDrawCall_reconfigure_kept hi) (ih _ _ h)
      · next s1 hi =>
        refine listenersKept_trans (initializeDrawCall_reconfigure_kept hi) ?_
        refine listenersKept_trans ?_ (switchToFallbackTechnique_kept h)
        split
        · exact deleteDrawCalls_kept s1 rd
        · exact ⟨rfl, rfl⟩
    · cases h

theorem macroChangedHandlerRefChanged_kept {w : World} {fuel : Nat} {s s' : Surface}
    {c : Container} {name : String}
    (h : macroChangedHandlerRefChanged w fuel s c name = .ok s') : ListenersKept s s' := by
  unfold macroChangedHandlerRefChanged at h
  split at h
  · dsimp only at h
    split at h
    · exact reinitializeDrawCalls_kept w fuel _ _ _ h
    · have hk := reinitializeDrawCalls_kept w fuel _ _ _ h
      exact ⟨hk.1, hk.2⟩
  · cases h; exact ⟨rfl, rfl⟩

/-- C18: for an initialised Surface and an `ADDED` or `REMOVED` event on
(container `c`, `name`), with `n` the listener count recorded for the macro.
When no pass of the current technique has a macro binding reading `name`, both
events return the state unchanged. Otherwise `ADDED` sets the count to `n + 1`
and subscribes to the value change exactly when `n = 0`; `REMOVED` first runs
the handler for `REF_CHANGED` (its fault, if any, is the fault of the event),
then, on the state that dispatch left, sets the count to `n - 1` and
unsubscribes exactly when `n - 1 = 0`. -/
theorem macroChangedHandler_added_removed (w : World) (fuel : Nat) (s : Surface)
    (c : Container) (name : String)
    (hinit : s.techniqueMacroNames = (initializeTechniqueMacroNames s).techniqueMacroNames) :
    (¬ s.effect.references s.technique name →
        macroChangedHandler w fuel s c name .ADDED = .ok s ∧
        macroChangedHandler w fuel s c name .REMOVED = .ok s) ∧
      (s.effect.references s.technique name →
        macroChangedHandler w fuel s c name .ADDED = .ok { s with
            numMacroListeners := s.numMacroListeners.set ⟨name, some c⟩
              ((s.numMacroListeners.find ⟨name, some c⟩).getD 0 + 1)
            macroChangedSlots :=
              if (s.numMacroListeners.find ⟨name, some c⟩).getD 0 = 0 then
                s.macroChangedSlots.set ⟨name, some c⟩ (.referenceChanged c name)
              else s.macroChangedSlots } ∧
        (∀ e, macroChangedHandler w fuel s c name .REF_CHANGED = .error e →
          macroChangedHandler w fuel s c name .REMOVED = .error e) ∧
        (∀ s1, macroChangedHandler w fuel s c name .REF_CHANGED = .ok s1 →
          macroChangedHandler w fuel s c name .REMOVED = .ok { s1 with
            numMacroListeners := s.numMacroListeners.set ⟨name, some c⟩
              ((s.numMacroListeners.find ⟨name, some c⟩).getD 0 - 1)
            macroChangedSlots :=
              if (s.numMacroListeners.find ⟨name, some c⟩).getD 0 - 1 = 0 then
                s.macroChangedSlots.erase ⟨name, some c⟩
              else s.macroChangedSlots })) := by
  have hiff : Tracked s name ↔ s.effect.references s.technique name := by
    rw [← tracked_initializeTechniqueMacroNames]
    unfold Tracked
    rw [hinit]
    rfl
  constructor
  · intro hno
    have hnt : ¬ Tracked s name := fun h => hno (hiff.mp h)
    cases hfind : s.techniqueMacroNames.find s.technique with
    | none => simp [macroChangedHandler, macroChangedHandlerAdded, hfind]
    | some names =>
      have hnin : name ∉ names := fun hin => hnt ⟨names, hfind, hin⟩
      simp [macroChangedHandler, macroChangedHandlerAdded, hfind, hnin]
  · intro href
    obtain ⟨names, hfind, hin⟩ := hiff.mpr href
    refine ⟨?_, ?_, ?_⟩
    · simp only [macroChangedHandler, macroChangedHandlerAdded, hfind, hin, if_true]
      congr 1
      split <;> rfl
    · intro e he
      simp only [macroChangedHandler] at he
      simp only [macroChangedHandler, hfind, hin, if_true, he]
    · intro s1 h1
      simp only [macroChangedHandler] at h1
      obtain ⟨k1, k2⟩ := macroChangedHandlerRefChanged_kept h1
      simp only [macroChangedHandler, hfind, hin, if_true, h1, k1, k2]
      split <;> rfl

/-- Witness of C18 on the Surface attached over "T" = [P]: "color" is read by no
pass, `numLights` is read by P. -/
theorem macroChangedHandler_added_removed_witness :
    (macroChangedHandler (Scene.world 2) 5 (Scene.attached Scene.effectP) 2 "color" .ADDED =
        .ok (Scene.attached Scene.effectP) ∧
      macroChangedHandler (Scene.world 2) 5 (Scene.attached Scene.effectP) 2 "color" .REMOVED =
        .ok (Scene.attached Scene.effectP)) ∧
    macroChangedHandler (Scene.world 2) 5 (Scene.attached Scene.effectP) 2 "numLights" .ADDED =
      .ok { Scene.attached Scene.effectP with
        numMacroListeners := (Scene.attached Scene.effectP).numMacroListeners.set
          ⟨"numLights", some 2⟩
          (((Scene.attached Scene.effectP).numMacroListeners.find ⟨"numLights", some 2⟩).getD 0
            + 1)
        macroChangedSlots :=
          if ((Scene.attached Scene.effectP).numMacroListeners.find
              ⟨"numLights", some 2⟩).getD 0 = 0 then
            (Scene.attached Scene.effectP).macroChangedSlots.set ⟨"numLights", some 2⟩
              (.referenceChanged 2 "numLights")
          else (Scene.attached Scene.effectP).macroChangedSlots } :=
  ⟨(macroChangedHandler_added_removed (Scene.world 2) 5 (Scene.attached Scene.effectP) 2 "color"
      rfl).1 (by unfold Effect.references; decide),
    ((macroChangedHandler_added_removed (Scene.world 2) 5 (Scene.attached Scene.effectP) 2
      "numLights" rfl).2 (by unfold Effect.references; decide)).1⟩

/-! ## The walk of the fallback chain -/

theorem visitedPasses_mem (w : World) (passes : List Pass) (t r o : Container) :
    ∀ (n : Nat) (pass : Pass) (lists : MacroLists),
      ∀ x ∈ visitedPasses w passes t r o n pass lists, x = pass ∨ x ∈ passes := by
  intro n
  induction n with
  | zero => intro pass lists x hx; simp [visitedPasses] at hx
  | succ n ih =>
    intro pass lists x hx
    simp only [visitedPasses, List.mem_cons] at hx
    rcases hx with rfl | hx
    · exact Or.inl rfl
    · right
      split at hx
      · cases hx
      · split at hx
        · cases hx
        · next next hfind =>
          rcases ih next _ x hx with rfl | h
          · exact List.mem_of_find?_eq_some hfind
          · exact h

theorem visitedPasses_length_le (w : World) (passes : List Pass) (t r o : Container)
    (n : Nat) (pass : Pass) (lists : MacroLists)
    (hnd : (visitedPasses w passes t r o n pass lists).Nodup) :
    (visitedPasses w passes t r o n pass lists).length ≤ passes.length + 1 := by
  cases n with
  | zero => simp [visitedPasses]
  | succ n =>
    simp only [visitedPasses, List.nodup_cons, List.length_cons] at hnd ⊢
    apply Nat.succ_le_succ
    apply List.Subperm.length_le
    apply List.subperm_of_subset hnd.2
    intro x hx
    split at hx
    · cases hx
    · split at hx
      · cases hx
      · next next hfind =>
        rcases visitedPasses_mem w passes t r o n next _ x hx with rfl | h
        · exact List.mem_of_find?_eq_some hfind
        · exact h

theorem getWorkingProgram_of_visited (w : World) (s : Surface) (passes : List Pass)
    (t r o : Container) (htech : s.effect.technique s.technique = some passes) :
    ∀ (n : Nat) (pass : Pass) (lists : MacroLists),
      (visitedPasses w passes t r o n pass lists).length < n →
      ∃ result out, getWorkingProgram w s t r o n pass lists = .ok (result, out) ∧
        ChainEnds w passes t r o pass lists result out := by
  intro n
  induction n with
  | zero => intro pass lists h; exact absurd h (Nat.not_lt_zero _)
  | succ n ih =>
    intro pass lists h
    cases hsel : w.selectProgram pass t r o lists with
    | mk program mid =>
      cases program with
      | some prog =>
        exact ⟨some prog, mid, by simp [getWorkingProgram, hsel], ChainEnds.selected _ _ _ _ hsel⟩
      | none =>
        cases hfind : passes.find? (fun p => p.name = pass.fallback) with
        | none =>
          exact ⟨none, mid, by simp [getWorkingProgram, hsel, htech, hfind],
            ChainEnds.exhausted _ _ _ hsel hfind⟩
        | some next =>
          simp only [visitedPasses, hsel, hfind, List.length_cons] at h
          obtain ⟨result, out, h1, h2⟩ := ih next mid (by omega)
          exact ⟨result, out, by simp [getWorkingProgram, hsel, htech, hfind, h1],
            ChainEnds.step _ _ _ _ _ _ hsel hfind h2⟩

theorem getWorkingProgram_fuel_mono (w : World) (s : Surface) (t r o : Container) :
    ∀ (n : Nat) (pass : Pass) (lists : MacroLists) (x : Option Program × MacroLists),
      getWorkingProgram w s t r o n pass lists = .ok x →
      ∀ extra, getWorkingProgram w s t r o (n + extra) pass lists = .ok x := by
  intro n
  induction n with
  | zero => intro pass lists x h; simp [getWorkingProgram] at h
  | succ n ih =>
    intro pass lists x h extra
    rw [Nat.add_right_comm]
    simp only [getWorkingProgram] at h ⊢
    split
    · next heq => simpa [heq] using h
    · next heq =>
      simp only [heq] at h
      split
      · next ht => simp [ht] at h
      · next ht =>
        simp only [ht] at h
        split
        · next hf => simpa [hf] using h
        · next hf =>
          simp only [hf] at h
          exact ih _ _ _ h extra

theorem chainEnds_unique {w : World} {passes : List Pass} {t r o : Container} {pass : Pass}
    {lists : MacroLists} {result result' : Option Program} {out out' : MacroLists}
    (h : ChainEnds w passes t r o pass lists result out)
    (h' : ChainEnds w passes t r o pass lists result' out') :
    result' = result ∧ out' = out := by
  induction h generalizing result' out' with
  | selected pass lists prog out hs =>
    cases h' with
    | selected _ _ _ _ hs' => rw [hs] at hs'; cases hs'; exact ⟨rfl, rfl⟩
    | exhausted _ _ _ hs' _ => rw [hs] at hs'; cases hs'
    | step _ _ _ _ _ _ hs' _ _ => rw [hs] at hs'; cases hs'
  | exhausted pass lists out hs hf =>
    cases h' with
    | selected _ _ _ _ hs' => rw [hs] at hs'; cases hs'
    | exhausted _ _ _ hs' _ => rw [hs] at hs'; cases hs'; exact ⟨rfl, rfl⟩
    | step _ _ _ _ _ _ _ hf' _ => rw [hf] at hf'; cases hf'
  | step pass next lists mid result out hs hf _ ih =>
    cases h' with
    | selected _ _ _ _ hs' => rw [hs] at hs'; cases hs'
    | exhausted _ _ _ _ hf' => rw [hf] at hf'; cases hf'
    | step _ next' _ mid' _ _ hs' hf' hrest =>
      rw [hs] at hs'; cases hs'
      rw [hf] at hf'; cases hf'
      exact ih hrest

/-- C16: when the current technique has the pass list `passes` and the walk of
the fallback chain from the starting pass visits no pass twice,
`getWorkingProgram` returns with any fuel of at least `passes.length + 2`, and
what it returns is the end of the walk described by `ChainEnds`: the program of
the first pass along the chain whose selection succeeds, or none when the last
visited pass fails and no pass of the list carries its fallback name; no other
end of the walk exists, so none is returned exactly in that case. -/
theorem getWorkingProgram_first_working (w : World) (s : Surface) (t r o : Container)
    (passes : List Pass) (start : Pass) (lists : MacroLists)
    (htech : s.effect.technique s.technique = some passes)
    (hnodup : (visitedPasses w passes t r o (passes.length + 2) start lists).Nodup) :
    ∃ result out,
      (∀ extra, getWorkingProgram w s t r o (passes.length + 2 + extra) start lists =
        .ok (result, out)) ∧
      ChainEnds w passes t r o start lists result out ∧
      ∀ result' out', ChainEnds w passes t r o start lists result' out' →
        result' = result ∧ out' = out := by
  have hlen := visitedPasses_length_le w passes t r o _ start lists hnodup
  obtain ⟨result, out, h1, h2⟩ := getWorkingProgram_of_visited w s passes t r o htech
    (passes.length + 2) start lists (by omega)
  exact ⟨result, out, getWorkingProgram_fuel_mono w s t r o _ _ _ _ h1, h2,
    fun _ _ h' => chainEnds_unique h2 h'⟩

/-- Witness of C16: the list [main, low] with `NUM_LIGHTS = 0`, starting at
"main": the walk visits "main", which fails, then "low", which selects. -/
theorem getWorkingProgram_first_working_witness :
    (visitedPasses (Scene.world 0) [Scene.passMain, Scene.passLow] 1 3 2
        ([Scene.passMain, Scene.passLow].length + 2) Scene.passMain ⟨[], [], []⟩).Nodup ∧
    ∃ result out,
      (∀ extra, getWorkingProgram (Scene.world 0) (Scene.attached Scene.effectMainLow) 1 3 2
        ([Scene.passMain, Scene.passLow].length + 2 + extra) Scene.passMain ⟨[], [], []⟩ =
          .ok (result, out)) ∧
      ChainEnds (Scene.world 0) [Scene.passMain, Scene.passLow] 1 3 2 Scene.passMain
        ⟨[], [], []⟩ result out ∧
      ∀ result' out', ChainEnds (Scene.world 0) [Scene.passMain, Scene.passLow] 1 3 2
          Scene.passMain ⟨[], [], []⟩ result' out' →
        result' = result ∧ out' = out :=
  ⟨by decide,
    getWorkingProgram_first_working (Scene.world 0) (Scene.attached Scene.effectMainLow) 1 3 2
      [Scene.passMain, Scene.passLow] Scene.passMain ⟨[], [], []⟩ rfl (by decide)⟩

/-! ## Listener counts against the number of draw calls -/

theorem countsStep_of_eq {s s' : Surface} (h : s'.numMacroListeners = s.numMacroListeners) :
    CountsStep s s' := by
  intro m
  rw [h]
  exact Or.inl rfl

theorem countsStep_trans {s₁ s₂ s₃ : Surface} (h₁ : CountsStep s₁ s₂) (h₂ : CountsStep s₂ s₃) :
    CountsStep s₁ s₃ := by
  intro m
  rcases h₁ m with e₁ | ⟨z₁, o₁⟩
  · rcases h₂ m with e₂ | ⟨z₂, o₂⟩
    · exact Or.inl (e₂.trans e₁)
    · exact Or.inr ⟨e₁ ▸ z₂, o₂⟩
  · rcases h₂ m with e₂ | ⟨z₂, _⟩
    · exact Or.inr ⟨z₁, e₂.trans o₁⟩
    · rw [o₁] at z₂
      exact absurd z₂ (by decide)

theorem registerMacroBinding_countsStep (w : World) (t r o : Container) (d : DrawCall)
    (s : Surface) (b : String × String) : CountsStep s (registerMacroBinding w t r o d s b) := by
  rcases registerMacroBinding_listeners w t r o d s b with ⟨hn, -⟩ | ⟨c, names, -, -, -, h0, hn, -⟩
  · exact countsStep_of_eq hn
  · intro m
    rw [hn]
    by_cases hm : resolveProperty w b.2 t r o = m
    · subst hm
      right
      exact ⟨h0, by simp⟩
    · left
      rw [Table.find_set_ne _ _ hm]

theorem foldl_registerMacroBinding_countsStep (w : World) (t r o : Container) (d : DrawCall)
    (l : List (String × String)) (s : Surface) :
    CountsStep s (l.foldl (registerMacroBinding w t r o d) s) := by
  induction l generalizing s with
  | nil => exact countsStep_of_eq rfl
  | cons b l ih => exact countsStep_trans (registerMacroBinding_countsStep w t r o d s b) (ih _)

theorem registerDrawCall_countsStep (w : World) (target : Node) (r : Container) (s : Surface)
    (pass : Pass) : CountsStep s (registerDrawCall w target r s pass).2 :=
  foldl_registerMacroBinding_countsStep w target.data r target.rootData s.nextDrawCall
    pass.macroBindings _

theorem createDrawCallsLoop_countsStep (w : World) (fuel : Nat) (r : Container) (target : Node)
    (rest : List Node) :
    ∀ (passes : List Pass) (s : Surface) (acc : List DrawCall) (fb : Bool)
      (res : List DrawCall × Bool) (s' : Surface),
      createDrawCallsLoop w fuel r passes s acc fb = .ok (res, s') →
      s.targets = target :: rest →
      (∀ p ∈ passes, Selects w s target r fuel p) →
      CountsStep s s' := by
  intro passes
  induction passes with
  | nil =>
    intro s acc fb res s' h _ _
    simp only [createDrawCallsLoop, Except.ok.injEq, Prod.mk.injEq] at h
    obtain ⟨-, rfl⟩ := h
    exact countsStep_of_eq rfl
  | cons p ps ih =>
    intro s acc fb res s' h hatt hsel
    obtain ⟨prog, lists, hp, hres⟩ := hsel p (List.mem_cons_self _ _)
    obtain ⟨s2, hf, -, hinit⟩ := initializeDrawCall_fresh hatt hp hres
    obtain ⟨a, b, rfl⟩ := hf
    obtain ⟨i, c, n, hreg⟩ := registerDrawCall_frame w target r
      { s with incorrectMacroToPasses := a, incorrectMacroChangedSlot := b } p
    have hX : CountsStep s (registerDrawCall w target r
        { s with incorrectMacroToPasses := a, incorrectMacroChangedSlot := b } p).2 :=
      registerDrawCall_countsStep w target r
        { s with incorrectMacroToPasses := a, incorrectMacroChangedSlot := b } p
    generalize (registerDrawCall w target r
      { s with incorrectMacroToPasses := a, incorrectMacroChangedSlot := b } p).2 = X at *
    simp only [createDrawCallsLoop, hinit] at h
    have step : ∀ s3 : Surface,
        createDrawCallsLoop w fuel r ps s3 (acc ++ [s.nextDrawCall]) fb = .ok (res, s') →
        s3.targets = X.targets → s3.effect = X.effect → s3.technique = X.technique →
        s3.numMacroListeners = X.numMacroListeners → CountsStep s s' := by
      intro s3 h3 e1 e2 e3 e5
      have hI := ih s3 _ _ _ _ h3 (by rw [e1, hreg]; exact hatt)
        (fun q hq => selects_congr (hsel q (List.mem_cons_of_mem _ hq))
          (by rw [e2, hreg]) (by rw [e3, hreg]))
      exact countsStep_trans hX (countsStep_trans (countsStep_of_eq e5) hI)
    cases hh : (configure X s.nextDrawCall prog).drawCalls.has r
    · simp only [hh, Bool.false_eq_true, if_false] at h
      exact step _ h rfl rfl rfl rfl
    · simp only [hh, if_true] at h
      exact step _ h rfl rfl rfl rfl

theorem createDrawCalls_countsStep {w : World} {fuel : Nat} {s : Surface} {r : Container}
    {target : Node} {rest : List Node} {passes : List Pass} {l : List DrawCall} {s' : Surface}
    (hatt : s.targets = target :: rest)
    (htech : s.effect.technique s.technique = some passes)
    (hsel : ∀ p ∈ passes, Selects w s target r fuel p)
    (h : createDrawCalls w fuel s r = .ok (l, s')) : CountsStep s s' := by
  obtain ⟨p, q, i, h0⟩ := createDrawCalls_prelude s r
  obtain ⟨s2, hloop, hc⟩ := createDrawCallsLoop_success w fuel r target rest passes
    { s with
      events := s.events ++ ((s.drawCalls.find r).getD []).map Event.drawCallRemoved
      drawCallToPass := p, drawCallToRendererData := q, macroPropertyNameToDrawCalls := i
      drawCalls := (s.drawCalls.erase r).set r [] }
    [] hatt (by simp) (fun x hx => selects_congr (hsel x hx) rfl rfl)
  have hL := createDrawCallsLoop_countsStep w fuel r target rest passes _ _ _ _ _ hloop hatt
    (fun x hx => selects_congr (hsel x hx) rfl rfl)
  have hw : watchMacroAdditionOrDeletion s2 r =
      { s2 with macroAddedOrRemovedSlots := macroExistenceWatch target r } := by
    unfold watchMacroAdditionOrDeletion
    rw [hc.targets, hatt]
    rfl
  unfold createDrawCalls at h
  simp only [h0, htech, Table.has_erase_self, Bool.false_eq_true, if_false, Table.find_set_self,
    Option.getD_some, hloop, Except.ok.injEq, Prod.mk.injEq] at h
  obtain ⟨-, rfl⟩ := h
  rw [hw]
  exact fun m => hL m

/-- C12, as stated, fails: technique "T" = [P, R], both passes binding
`numLights`, compiled from the freshly attached Surface with `NUM_LIGHTS = 2`.
The two draw calls 0 and 1 are live and both are indexed under `numLights`, yet
the listener count recorded for `numLights` is 1. -/
theorem createDrawCalls_count_is_one :
    (Scene.attached Scene.effectPR).numMacroListeners = [] ∧
    ∃ s', createDrawCalls (Scene.world 2) 5 (Scene.attached Scene.effectPR) 3 =
        .ok ([0, 1], s') ∧
      s'.drawCalls.find 3 = some [0, 1] ∧
      s'.drawCallToPass.find 0 = some Scene.passP ∧
      s'.drawCallToPass.find 1 = some Scene.passR ∧
      s'.macroPropertyNameToDrawCalls.find "numLights" = some [0, 1] ∧
      s'.numMacroListeners.find Scene.numLights = some 1 :=
  ⟨rfl, _, rfl, rfl, rfl, rfl, rfl, rfl⟩

/-- C12 as amended: a `createDrawCalls` in which every pass gets a program does
not count draw calls. It leaves every listener count as it was or moves it from
0 to 1; for a macro bound by a pass of the technique, resolved in a container
and tracked for the technique, a count of 0 becomes 1 whatever the number of
draw calls that bind it; and `deleteDrawCalls` changes no count. -/
theorem createDrawCalls_counts (w : World) (fuel : Nat) (s : Surface) (r : Container)
    (target : Node) (rest : List Node) (passes : List Pass)
    (hatt : s.targets = target :: rest)
    (htech : s.effect.technique s.technique = some passes)
    (hsel : ∀ p ∈ passes, Selects w s target r fuel p) :
    ∃ l s', createDrawCalls w fuel s r = .ok (l, s') ∧
      (∀ m, (s'.numMacroListeners.find m).getD 0 = (s.numMacroListeners.find m).getD 0 ∨
        ((s.numMacroListeners.find m).getD 0 = 0 ∧ (s'.numMacroListeners.find m).getD 0 = 1)) ∧
      (∀ p ∈ passes, ∀ b ∈ p.macroBindings,
        (resolveProperty w b.2 target.data r target.rootData).container ≠ none →
        Tracked s b.2 →
        (s.numMacroListeners.find (resolveProperty w b.2 target.data r target.rootData)).getD 0
          = 0 →
        (s'.numMacroListeners.find (resolveProperty w b.2 target.data r target.rootData)).getD 0
          = 1) ∧
      (deleteDrawCalls s' r).numMacroListeners = s'.numMacroListeners := by
  obtain ⟨s', h, hc, -⟩ := createDrawCalls_success hatt htech hsel
  have hC := createDrawCalls_countsStep hatt htech hsel h
  have hL := createDrawCalls_listeners hatt htech hsel h
  refine ⟨_, s', h, hC, ?_, (deleteDrawCalls_kept s' r).1⟩
  intro p hp b hb hres htr h0
  rcases hC (resolveProperty w b.2 target.data r target.rootData) with e | ⟨-, o⟩
  · rcases hL.settles p hp b hb with k | k | k
    · exact absurd k hres
    · rw [e] at k
      exact absurd h0 k
    · obtain ⟨names, hfind, hin⟩ := htr
      rw [hc.techniqueMacroNames, hc.technique] at k
      exact absurd hin (k names hfind)
  · exact o

/-- Witness of the amended C12: technique "T" = [P, R] with `NUM_LIGHTS = 2` on
the freshly attached Surface. -/
theorem createDrawCalls_counts_witness :
    ∃ l s', createDrawCalls (Scene.world 2) 5 (Scene.attached Scene.effectPR) 3 = .ok (l, s') ∧
      (∀ m, (s'.numMacroListeners.find m).getD 0 =
          ((Scene.attached Scene.effectPR).numMacroListeners.find m).getD 0 ∨
        (((Scene.attached Scene.effectPR).numMacroListeners.find m).getD 0 = 0 ∧
          (s'.numMacroListeners.find m).getD 0 = 1)) ∧
      (∀ p ∈ [Scene.passP, Scene.passR], ∀ b ∈ p.macroBindings,
        (resolveProperty (Scene.world 2) b.2 Scene.node.data 3 Scene.node.rootData).container ≠
          none →
        Tracked (Scene.attached Scene.effectPR) b.2 →
        ((Scene.attached Scene.effectPR).numMacroListeners.find
          (resolveProperty (Scene.world 2) b.2 Scene.node.data 3 Scene.node.rootData)).getD 0
            = 0 →
        (s'.numMacroListeners.find
          (resolveProperty (Scene.world 2) b.2 Scene.node.data 3 Scene.node.rootData)).getD 0
            = 1) ∧
      (deleteDrawCalls s' 3).numMacroListeners = s'.numMacroListeners :=
  createDrawCalls_counts (Scene.world 2) 5 (Scene.attached Scene.effectPR) 3 Scene.node []
    [Scene.passP, Scene.passR] rfl rfl
    (by
      intro p hp
      simp only [List.mem_cons, List.mem_singleton, List.not_mem_nil, or_false] at hp
      rcases hp with rfl | rfl
      · exact ⟨_, _, rfl, by decide⟩
      · exact ⟨_, _, rfl, by decide⟩)

/-! ## Balance of "draw call added" and "draw call removed" -/

/-- C21: technique "T" = [P, Q] with `NUM_LIGHTS = 0` on the freshly attached
Surface. `createDrawCalls` emits "draw call added" for draw call 0, created for
Q after P had failed, and nothing else: "draw call removed" is not emitted for
it although the call returns the empty list and the Surface holds no draw-call
list, so draw call 0 is announced as added, never as removed, and is not live. -/
theorem createDrawCalls_added_never_removed :
    (Scene.attached Scene.effectPQ).events = [] ∧
    ∃ s', createDrawCalls (Scene.world 0) 5 (Scene.attached Scene.effectPQ) 3 = .ok ([], s') ∧
      Event.drawCallAdded 0 ∈ s'.events ∧
      Event.drawCallRemoved 0 ∉ s'.events ∧
      ∀ r l, s'.drawCalls.find r = some l → 0 ∉ l :=
  ⟨rfl, _, rfl, by decide, by decide, fun r l h => by simp [Table.find] at h⟩

/-! ## The macro index after `deleteDrawCalls` -/

/-- C22: technique "T" = [D], where the two macro bindings of D read the same
property `numLights`, compiled with `NUM_LIGHTS = 2`: draw call 0 is indexed
twice under `numLights`. `deleteDrawCalls` removes the list of the renderer
context, the reverse-map entries, and emits "draw call removed" once, but it
erases only the first occurrence of the draw call in the index list: draw call
0 is still indexed under `numLights`. After the next `createDrawCalls` a
`REF_CHANGED` on `numLights` reads the reverse map for the stale draw call 0 and
dereferences a null pass. -/
theorem deleteDrawCalls_leaves_stale_index :
    (Scene.compiled Scene.effectD).drawCalls.find 3 = some [0] ∧
    (Scene.compiled Scene.effectD).macroPropertyNameToDrawCalls.find "numLights" =
      some [0, 0] ∧
    (deleteDrawCalls (Scene.compiled Scene.effectD) 3).drawCalls.find 3 = none ∧
    (deleteDrawCalls (Scene.compiled Scene.effectD) 3).drawCallToPass.find 0 = none ∧
    (deleteDrawCalls (Scene.compiled Scene.effectD) 3).events =
      (Scene.compiled Scene.effectD).events ++ [.drawCallRemoved 0] ∧
    (deleteDrawCalls (Scene.compiled Scene.effectD) 3).macroPropertyNameToDrawCalls.find
      "numLights" = some [0] ∧
    ∃ s', createDrawCalls (Scene.world 2) 5 (deleteDrawCalls (Scene.compiled Scene.effectD) 3) 3 =
        .ok ([1], s') ∧
      s'.macroPropertyNameToDrawCalls.find "numLights" = some [0, 1, 1] ∧
      ∃ s'', macroChangedHandler (Scene.world 2) 5 s' 2 "numLights" .REF_CHANGED =
        .error (.nullPointer, s'') :=
  ⟨rfl, rfl, rfl, rfl, rfl, rfl, _, rfl, rfl, _, rfl⟩

/-! ## Sign of the listener counts -/

/-- C23: technique "T" = [P] compiled with `NUM_LIGHTS = 2`, the property being
resolved in the root container 2 (count 1 for that macro). The Surface watches
removals in the target container 1; a `REMOVED` event for `numLights` on
container 1, which never received `ADDED`, is handled normally and leaves the
listener count -1 for the macro (`numLights`, container 1). -/
theorem macroChangedHandler_removed_negative_count :
    Slot.propertyRemoved 1 ∈ (Scene.compiled Scene.effectP).macroAddedOrRemovedSlots ∧
    (Scene.compiled Scene.effectP).numMacroListeners =
      [(⟨"numLights", some 2⟩, 1)] ∧
    ∃ s', macroChangedHandler (Scene.world 2) 5 (Scene.compiled Scene.effectP) 1 "numLights"
        .REMOVED = .ok s' ∧
      s'.numMacroListeners.find ⟨"numLights", some 1⟩ = some (-1) ∧
      s'.numMacroListeners.find ⟨"numLights", some 2⟩ = some 1 :=
  ⟨by decide, rfl, _, rfl, rfl, rfl⟩

/-! ## Termination of `getWorkingProgram` -/

/-- C24: technique "T" = [S], where pass S declares its own name as fallback,
with `NUM_LIGHTS = 0` so that the selection of S fails. Whatever the fuel and
the out-lists, `getWorkingProgram` started at S does not return: each turn of
the loop fails on S, finds S again under the fallback name, and goes on. -/
theorem getWorkingProgram_self_fallback_diverges (fuel : Nat) (lists : MacroLists) :
    (Scene.world 0).selectProgram Scene.passS 1 3 2 lists =
        (none, { lists with
          incorrectIntegerMacros := lists.incorrectIntegerMacros ++ [Scene.numLights] }) ∧
      Scene.passS.fallback = Scene.passS.name ∧
      getWorkingProgram (Scene.world 0) (Scene.attached Scene.effectS) 1 3 2 fuel Scene.passS
        lists = .error .nonTermination := by
  refine ⟨rfl, rfl, ?_⟩
  induction fuel generalizing lists with
  | zero => rfl
  | succ n ih =>
    have hsel : (Scene.world 0).selectProgram Scene.passS 1 3 2 lists =
        (none, { lists with
          incorrectIntegerMacros := lists.incorrectIntegerMacros ++ [Scene.numLights] }) := rfl
    have htech : (Scene.attached Scene.effectS).effect.technique
        (Scene.attached Scene.effectS).technique = some [Scene.passS] := rfl
    have hfind : [Scene.passS].find? (fun p => decide (p.name = Scene.passS.fallback)) =
        some Scene.passS := by decide
    simp only [getWorkingProgram, hsel, htech, hfind]
    exact ih _

end Minko
